import Mathlib

/-!
Verification development for the text chunker in `tokenizer.py` / `app.py`.

The core of the program is one large regular expression built by
`TextChunker._build_full_regex` (compiled with `re.MULTILINE | re.UNICODE |
re.VERBOSE` from the `regex` module) together with a `finditer` scan
(`process_str` / `process_file`) that turns successive matches into
`TextChunk` records.

We embed the program shallowly:

* a small backtracking regular-expression engine `ml` over `List Char`,
  returning the list of all match states in the exact exploration order of a
  Python-style backtracking engine (ordered alternation, greedy and lazy
  bounded repetition, lookahead and lookbehind, capture groups and
  backreferences, MULTILINE anchors).  The head of the list is the match the
  Python engine returns.  Fuel makes the definition total; every theorem that
  quantifies over texts is proved for every fuel value.
* the exact effective pattern of `_build_full_regex`.  Effective means: after
  Python f-string evaluation and after `re.VERBOSE` whitespace stripping.  In
  particular (all faithful to the source, not simplifications):
  - line 174 `f"(?: {4}|\t)"` evaluates to `(?: 4|\t)` and VERBOSE strips the
    space, so the indented-code alternative requires a literal `4` or a tab;
  - the `f"...{{{0,{const.X}}}}..."` occurrences in rules 10, 12 and 13
    evaluate the inner field to a Python tuple, producing the literal text
    `{(0, {N})}` in the pattern; after VERBOSE stripping this parses as a
    literal open brace, a capture group matching `0` followed by exactly `N`
    commas, and a literal close brace.  These stray capture groups shift the
    group numbering used by `_determine_chunk_type`;
  - in `SENTENCE_END` and in `build_sentence_pattern` the unparenthesized
    interpolation of `PUNCTUATION` splices its alternation into the host
    pattern, so trailing context attaches only to the last alternative.
* the scanning loop of `process_str`/`process_file` (`regex.finditer`), the
  group-indexed chunk typing of `_determine_chunk_type`, and the JSON-shaped
  responses of `_build_json_response`, `process_file` and `process`.

Unicode notes: the character classes below are translated from the source
pattern; the Unicode-property classes (`\p{Emoji_Presentation}`,
`\p{Extended_Pictographic}`) and the non-ASCII parts of `\s`, `\w`, `\d` are
modelled on the fragment of Unicode the concrete inputs of this file exercise
(all ASCII, on which these properties hold of no character); no theorem below
depends on their values outside that fragment.
-/

namespace JinaTokenizer

/-- One capture state of the backtracking engine: the current position in the
text and the recorded capture groups, most recent first (so lookup finds the
latest write, as in Python where a repeated group keeps its last match). -/
structure MState where
  pos : Nat
  caps : List (Nat × Nat × Nat)
deriving Repr, DecidableEq

/-- Latest recorded span of capture group `i`, if any. -/
def lookupCap (i : Nat) : List (Nat × Nat × Nat) → Option (Nat × Nat)
  | [] => none
  | (j, s, e) :: rest => if j = i then some (s, e) else lookupCap i rest

/-- Abstract syntax of the regular-expression fragment the compiled pattern
uses: character classes, sequencing, ordered alternation, bounded or
unbounded repetition (greedy or lazy), lookahead, bounded-width lookbehind,
capture groups, backreferences, and the MULTILINE anchors. -/
inductive Regex where
  | eps : Regex
  | cls (p : Char → Bool) : Regex
  | seq (a b : Regex) : Regex
  | altL (rs : List Regex) : Regex
  | rep (r : Regex) (lo : Nat) (hi : Option Nat) (minFirst : Bool) : Regex
  | repCls (p : Char → Bool) (lo : Nat) (hi : Option Nat) (minFirst : Bool) : Regex
  | lookAhead (positive : Bool) (r : Regex) : Regex
  | lookBehind (positive : Bool) (w : Nat) (r : Regex) : Regex
  | group (i : Nat) (r : Regex) : Regex
  | backref (i : Nat) : Regex
  | lineStart : Regex
  | lineEnd : Regex

/-- Smart constructor for quantifiers: a repetition whose body is a single
character class is stored as `repCls`, whose matching enumerates the
possible counts directly.  That is the same set of outcomes, in the same
backtracking order, as iterating the class (each iteration of a
single-character class is deterministic and records no captures), but it
evaluates in constant stack; `ml_repCls_general` below proves the
agreement with the iterated form. -/
def mkRep (r : Regex) (lo : Nat) (hi : Option Nat) (minFirst : Bool) : Regex :=
  match r with
  | .cls p => .repCls p lo hi minFirst
  | _ => .rep r lo hi minFirst

/-- Does the text carry, starting at `pos`, the same characters as the slice
`[s, e)`?  Used for backreference matching. -/
def literalHere (text : List Char) (s e pos : Nat) : Bool :=
  (List.range (e - s)).all (fun k =>
    (text[pos + k]?).isSome && text[s + k]? == text[pos + k]?)

/-- The count cap a quantifier upper bound imposes at a given position: the
explicit bound if there is one, otherwise the remaining text length. -/
def capOf (text : List Char) (hi : Option Nat) (pos : Nat) : Nat :=
  match hi with
  | some h => h
  | none => text.length - pos

/-- Length of the run of characters satisfying `p` starting at `pos`, capped
at `cap` (tail-recursive so that long runs evaluate in constant stack). -/
def runLen (text : List Char) (p : Char → Bool) : Nat → Nat → Nat → Nat
  | _, 0, acc => acc
  | pos, Nat.succ cap, acc =>
    match text[pos]? with
    | some c => if p c then runLen text p (pos + 1) cap (acc + 1) else acc
    | none => acc

/-- The states a repetition of a single character class can stop in,
starting from `st`: one state per admissible count `k` with
`lo ≤ k ≤ maxK`, in backtracking order (greedy: largest count first;
lazy: smallest count first).  This is exactly the order in which a
backtracking engine explores a class repetition, since each iteration of a
single-character class is deterministic and records no captures. -/
def clsRepStates (st : MState) (lo maxK : Nat) (minFirst : Bool) : List MState :=
  if maxK < lo then []
  else
    let ks := List.range' lo (maxK + 1 - lo)
    (if minFirst then ks else ks.reverse).map (fun k => { st with pos := st.pos + k })

/-- The backtracking matcher.  `ml text fuel r st` is the list of all states
the engine can reach by matching `r` from `st`, in Python backtracking
order: the list head is the match Python commits to.  `fuel` bounds the
recursion depth and is threaded through every recursive call. -/
def ml (text : List Char) : Nat → Regex → MState → List MState
  | 0, _, _ => []
  | Nat.succ f, r, st =>
    match r with
    | .eps => [st]
    | .cls p =>
      match text[st.pos]? with
      | some c => if p c then [{ st with pos := st.pos + 1 }] else []
      | none => []
    | .seq a b => (ml text f a st).flatMap (fun st1 => ml text f b st1)
    | .altL rs => rs.flatMap (fun r1 => ml text f r1 st)
    | .repCls p lo hi minFirst =>
      clsRepStates st lo (runLen text p st.pos (capOf text hi st.pos) 0) minFirst
    | .rep r1 lo hi minFirst =>
      let stopHere : List MState := if lo = 0 then [st] else []
      let canIter : Bool := match hi with | some h => decide (0 < h) | none => true
      let iter : List MState :=
        if canIter then
          (ml text f r1 st).flatMap (fun st1 =>
            ml text f (.rep r1 (lo - 1) (Option.map (fun h => h - 1) hi) minFirst) st1)
        else []
      if minFirst then stopHere ++ iter else iter ++ stopHere
    | .lookAhead positive r1 =>
      if (ml text f r1 st).isEmpty then (if positive then [] else [st])
      else (if positive then [st] else [])
    | .lookBehind positive w r1 =>
      let found := (List.range (w + 1)).any (fun d =>
        decide (d ≤ st.pos) &&
          (ml text f r1 { st with pos := st.pos - d }).any (fun st2 => st2.pos == st.pos))
      if found = positive then [st] else []
    | .group i r1 =>
      (ml text f r1 st).map (fun st1 => { st1 with caps := (i, st.pos, st1.pos) :: st1.caps })
    | .backref i =>
      match lookupCap i st.caps with
      | none => []
      | some (s, e) =>
        if literalHere text s e st.pos then [{ st with pos := st.pos + (e - s) }] else []
    | .lineStart =>
      if st.pos = 0 then [st]
      else if text[st.pos - 1]? = some (Char.ofNat 10) then [st] else []
    | .lineEnd =>
      if st.pos = text.length then [st]
      else if text[st.pos]? = some (Char.ofNat 10) then [st] else []

mutual
/-- Can the expression match the empty string?  (Conservative: `true` may be
an over-approximation, e.g. for backreferences; this direction is what the
no-empty-match lemma needs.) -/
def nullableB : Regex → Bool
  | .eps => true
  | .cls _ => false
  | .seq a b => nullableB a && nullableB b
  | .altL rs => nullableBL rs
  | .rep r lo _ _ => decide (lo = 0) || nullableB r
  | .repCls _ lo _ _ => decide (lo = 0)
  | .lookAhead _ _ => true
  | .lookBehind _ _ _ => true
  | .group _ r => nullableB r
  | .backref _ => true
  | .lineStart => true
  | .lineEnd => true

/-- List version of `nullableB` for the alternation constructor. -/
def nullableBL : List Regex → Bool
  | [] => false
  | r :: rs => nullableB r || nullableBL rs
end

mutual
/-- All capture-group indices occurring in an expression, in pattern order
(pre-order, so a group wrapper precedes the groups inside it), mirroring
how a regex engine numbers groups by the order of their opening
parentheses. -/
def groupIdxsList : Regex → List Nat
  | .eps => []
  | .cls _ => []
  | .seq a b => groupIdxsList a ++ groupIdxsList b
  | .altL rs => groupIdxsListL rs
  | .rep r _ _ _ => groupIdxsList r
  | .repCls _ _ _ _ => []
  | .lookAhead _ r => groupIdxsList r
  | .lookBehind _ _ r => groupIdxsList r
  | .group i r => i :: groupIdxsList r
  | .backref _ => []
  | .lineStart => []
  | .lineEnd => []

/-- List version of `groupIdxsList` for the alternation constructor. -/
def groupIdxsListL : List Regex → List Nat
  | [] => []
  | r :: rs => groupIdxsList r ++ groupIdxsListL rs
end

/-! ## Characters and character classes -/

/-- Apostrophe. -/
def sqChar : Char := Char.ofNat 39

/-- Backtick. -/
def btChar : Char := Char.ofNat 96

/-- Opening curly brace (appears literally in the damaged sub-patterns). -/
def lbChar : Char := Char.ofNat 123

/-- Closing curly brace. -/
def rbChar : Char := Char.ofNat 125

/-- Python `\s` for `str` patterns: ASCII whitespace plus the Unicode
whitespace code points. -/
def isSpaceChar (c : Char) : Bool :=
  c == ' ' || c == '\t' || c == '\n' || c == '\r' || c.val == 11 || c.val == 12 ||
  (28 ≤ c.val && c.val ≤ 31) || c.val == 133 || c.val == 160 || c.val == 5760 ||
  (8192 ≤ c.val && c.val ≤ 8202) || c.val == 8232 || c.val == 8233 || c.val == 8239 ||
  c.val == 8287 || c.val == 12288

/-- Python `\w` (ASCII fragment: letters, digits, underscore; the non-ASCII
word characters of Unicode play no role in any input below). -/
def isWordChar (c : Char) : Bool :=
  c.isAlphanum || c == '_'

/-- Python `\d` (ASCII fragment). -/
def isDigitChar (c : Char) : Bool := c.isDigit

/-- Model of `[\p{Emoji_Presentation}\p{Extended_Pictographic}]`: the main
emoji blocks.  No ASCII character has either property, which is all the
concrete inputs below rely on. -/
def isEmojiPict (c : Char) : Bool :=
  (0x1F000 ≤ c.val && c.val ≤ 0x1FAFF) || (0x2600 ≤ c.val && c.val ≤ 0x27BF) ||
  (0x2B00 ≤ c.val && c.val ≤ 0x2BFF) || (0xFE00 ≤ c.val && c.val ≤ 0xFE0F)

/-! ## Pattern combinators (shorthand for the translation only) -/

/-- Single literal character. -/
def rchar (c : Char) : Regex := .cls (fun x => x == c)

/-- Literal character sequence. -/
def rlit (cs : List Char) : Regex := cs.foldr (fun c acc => .seq (rchar c) acc) .eps

/-- Literal string. -/
def rstr (s : String) : Regex := rlit s.data

/-- Character class listing its members. -/
def rAnyOf (cs : List Char) : Regex := .cls (fun c => cs.contains c)

/-- Negated character class. -/
def rNoneOf (cs : List Char) : Regex := .cls (fun c => !(cs.contains c))

/-- `r?` (greedy). -/
def ropt (r : Regex) : Regex := mkRep r 0 (some 1) false

/-- `r*` (greedy). -/
def rstar (r : Regex) : Regex := mkRep r 0 none false

/-- `r+` (greedy). -/
def rplus (r : Regex) : Regex := mkRep r 1 none false

/-- `r{lo,hi}` (greedy). -/
def repB (r : Regex) (lo hi : Nat) : Regex := mkRep r lo (some hi) false

/-- `r{lo,hi}?` (lazy). -/
def repL (r : Regex) (lo hi : Nat) : Regex := mkRep r lo (some hi) true

/-- `r{lo,}` (greedy, unbounded). -/
def repMin (r : Regex) (lo : Nat) : Regex := mkRep r lo none false

/-- Sequence of patterns. -/
def seqs (rs : List Regex) : Regex := rs.foldr .seq .eps

/-- `[^\r\n]`. -/
def nonNl : Regex := .cls (fun c => !(c == '\r' || c == '\n'))

/-- `.` outside DOTALL: anything but a newline. -/
def dotCls : Regex := .cls (fun c => !(c == '\n'))

/-- `[\s\S]`. -/
def anyCls : Regex := .cls (fun _ => true)

/-- `\s` as a class node. -/
def spaceCls : Regex := .cls isSpaceChar

/-- `[a-zA-Z]`. -/
def alphaCls : Regex := .cls (fun c => c.isAlpha)

/-- `[0-9]`. -/
def digit09 : Regex := .cls (fun c => c.isDigit)

/-- `\r?\n`. -/
def crlf : Regex := .seq (ropt (rchar '\r')) (rchar '\n')

/-- `(?:^|\r?\n)`. -/
def lineStartOrNl : Regex := .altL [.lineStart, crlf]

/-- `(?:\r?\n|$)`. -/
def crlfOrEnd : Regex := .altL [crlf, .lineEnd]

/-- `\r?\n?`. -/
def optCRNl : Regex := .seq (ropt (rchar '\r')) (ropt (rchar '\n'))

/-! ## `TextConstants` (`tokenizer.py` lines 31-61) -/

namespace TextConstants

def MAX_HEADING_LENGTH : Nat := 7
def MAX_HEADING_CONTENT_LENGTH : Nat := 200
def MAX_HEADING_UNDERLINE_LENGTH : Nat := 200
def MAX_HTML_HEADING_ATTRIBUTES_LENGTH : Nat := 100
def MAX_LIST_ITEM_LENGTH : Nat := 200
def MAX_NESTED_LIST_ITEMS : Nat := 6
def MAX_LIST_INDENT_SPACES : Nat := 7
def MAX_BLOCKQUOTE_LINE_LENGTH : Nat := 200
def MAX_BLOCKQUOTE_LINES : Nat := 15
def MAX_CODE_BLOCK_LENGTH : Nat := 1500
def MAX_CODE_LANGUAGE_LENGTH : Nat := 20
def MAX_INDENTED_CODE_LINES : Nat := 20
def MAX_TABLE_CELL_LENGTH : Nat := 200
def MAX_TABLE_ROWS : Nat := 20
def MAX_HTML_TABLE_LENGTH : Nat := 2000
def MIN_HORIZONTAL_RULE_LENGTH : Nat := 3
def MAX_SENTENCE_LENGTH : Nat := 400
def MAX_QUOTED_TEXT_LENGTH : Nat := 300
def MAX_PARENTHETICAL_CONTENT_LENGTH : Nat := 200
def MAX_NESTED_PARENTHESES : Nat := 5
def MAX_MATH_INLINE_LENGTH : Nat := 100
def MAX_MATH_BLOCK_LENGTH : Nat := 500
def MAX_PARAGRAPH_LENGTH : Nat := 1000
def MAX_STANDALONE_LINE_LENGTH : Nat := 800
def MAX_HTML_TAG_ATTRIBUTES_LENGTH : Nat := 100
def MAX_HTML_TAG_CONTENT_LENGTH : Nat := 1000
def LOOKAHEAD_RANGE : Nat := 100

end TextConstants

/-! ## `RegexPatterns` (`tokenizer.py` lines 65-103) -/

/-- `AVOID_AT_START`: whitespace, closing bracket, closing brace, closing
parenthesis, greater-than, comma, apostrophe. -/
def AVOID_AT_START : Regex :=
  .cls (fun c => isSpaceChar c || c == ']' || c == rbChar || c == ')' ||
    c == '>' || c == ',' || c == sqChar)

/-- First alternative of `PUNCTUATION`: `[.!?…]`. -/
def punctCls1 : Regex := .cls (fun c => c == '.' || c == '!' || c == '?' || c.val == 0x2026)

/-- Second alternative of `PUNCTUATION`: `\.{3}`. -/
def punctDot3 : Regex := rlit ['.', '.', '.']

/-- Third alternative of `PUNCTUATION`: `[…⁇-⁉]`. -/
def punctCls2 : Regex := .cls (fun c => c.val == 0x2026 || (0x2047 ≤ c.val && c.val ≤ 0x2049))

/-- Fourth alternative of `PUNCTUATION`: the emoji-property class. -/
def emojiCls : Regex := .cls isEmojiPict

/-- The four alternatives of `PUNCTUATION` in declaration order. -/
def punctAlts : List Regex := [punctCls1, punctDot3, punctCls2, emojiCls]

/-- `QUOTE_END` = an apostrophe (or doubled apostrophe) followed by a
backtick (resp. doubled backtick) lookahead. -/
def QUOTE_END : Regex :=
  .altL [.seq (rchar sqChar) (.lookAhead true (rchar btChar)),
         .seq (rlit [sqChar, sqChar]) (.lookAhead true (rlit [btChar, btChar]))]

/-- `SENTENCE_END`.  Because `PUNCTUATION` is interpolated without extra
parentheses, its alternation splices into the outer group: the negative
lookbehind guard attaches only to the last (emoji) alternative. -/
def SENTENCE_END : Regex :=
  .seq
    (.altL [punctCls1, punctDot3, punctCls2,
            .seq emojiCls
              (.lookBehind false 1 (.seq AVOID_AT_START (.lookAhead true (.altL punctAlts)))),
            QUOTE_END])
    (.lookAhead true (.altL [.cls (fun c => !(isSpaceChar c)), .lineEnd]))

/-- `SENTENCE_BOUNDARY` = `(?:SENTENCE_END|(?=[\r\n]|$))`. -/
def SENTENCE_BOUNDARY : Regex :=
  .altL [SENTENCE_END,
         .lookAhead true (.altL [.cls (fun c => c == '\r' || c == '\n'), .lineEnd])]

/-- `build_sentence_pattern(max_length)` (`tokenizer.py` lines 83-103).  The
same alternation-splicing applies inside `(?!PUNCTUATION\s)` (the `\s`
attaches only to the emoji alternative) and `(?=PUNCTUATION|QUOTE_END)`. -/
def build_sentence_pattern (maxLength : Nat) : Regex :=
  let lookaheadPattern : Regex :=
    .seq (repB (.seq (.lookAhead false SENTENCE_END) dotCls) 1 TextConstants.LOOKAHEAD_RANGE)
      SENTENCE_END
  let notPunctuationSpace : Regex :=
    .lookAhead false (.altL [punctCls1, punctDot3, punctCls2, .seq emojiCls spaceCls])
  seqs [notPunctuationSpace,
        .altL [.seq (repB nonNl 1 maxLength) SENTENCE_BOUNDARY,
               seqs [repB nonNl 1 maxLength,
                     .lookAhead true (.altL (punctAlts ++ [QUOTE_END])),
                     ropt lookaheadPattern]],
        rstar AVOID_AT_START]

/-! ## The 14 rules of `_build_full_regex` (`tokenizer.py` lines 114-261)

Each rule `k` is wrapped in a capture group: `"|".join(f"({p})" ...)`.
Groups are numbered by opening-parenthesis order, so the stray capture
groups produced by the damaged `{(0, {N})}` fragments inside rules 10, 12
and 13 push the wrapper groups of rules 11-14 to numbers 23, 24, 27, 30. -/

/-- The damaged fragment `{(0,{N})}` (literal braces, a capture group
matching `0` followed by exactly `N` commas, closing literal brace).  It is
what `f"...{{{0,{const}}}}..."` compiles to after f-string evaluation and
VERBOSE whitespace stripping. -/
def dmg (g n : Nat) : Regex :=
  seqs [rchar lbChar, .group g (.seq (rchar '0') (repB (rchar ',') n n)), rchar rbChar]

/-- The damaged fragment `{(0,{N})}?`: as `dmg`, but a `?` written after the
closing brace makes that final literal brace optional. -/
def dmgOpt (g n : Nat) : Regex :=
  seqs [rchar lbChar, .group g (.seq (rchar '0') (repB (rchar ',') n n)), ropt (rchar rbChar)]

/-- Rule 1 (headings, lines 127-137): `^` applies to all three prefix
alternatives, including the HTML one, since the inner group closes after
`<h[1-6][^>]*>`. -/
def rule1 : Regex :=
  .group 1 (seqs [
    .seq .lineStart (.altL [
      repB (rAnyOf ['#', '*', '=', '-']) 1 TextConstants.MAX_HEADING_LENGTH,
      seqs [.cls isWordChar, repB nonNl 0 TextConstants.MAX_HEADING_CONTENT_LENGTH, crlf,
            repB (rAnyOf ['-', '=']) 2 TextConstants.MAX_HEADING_UNDERLINE_LENGTH],
      seqs [rstr "<h", rAnyOf ['1', '2', '3', '4', '5', '6'], rstar (rNoneOf ['>']),
            rchar '>']]),
    repB nonNl 1 TextConstants.MAX_HEADING_CONTENT_LENGTH,
    ropt (seqs [rstr "</h", rAnyOf ['1', '2', '3', '4', '5', '6'], rchar '>']),
    crlfOrEnd])

/-- Rule 2 (citation markers, lines 140-142): `\[[0-9]+\]` then a bounded
line; the digit run is unbounded. -/
def rule2 : Regex :=
  .group 2 (seqs [rchar '[', rplus digit09, rchar ']',
    repB nonNl 1 TextConstants.MAX_STANDALONE_LINE_LENGTH])

/-- A list-item marker: `[-*+•]`, `\d{1,3}\.\w\.`, or `\[[ xX]\]`. -/
def listMarker : Regex :=
  .altL [rAnyOf ['-', '*', '+', '•'],
         seqs [repB (.cls isDigitChar) 1 3, rchar '.', .cls isWordChar, rchar '.'],
         seqs [rchar '[', rAnyOf [' ', 'x', 'X'], rchar ']']]

/-- One nested list item at the given indentation range. -/
def listNested (lo hi : Nat) : Regex :=
  seqs [crlf, repB (rAnyOf [' ', '\t']) lo hi, listMarker, rplus (rAnyOf [' ', '\t']),
        build_sentence_pattern TextConstants.MAX_LIST_ITEM_LENGTH]

/-- Rule 3 (list items, lines 145-152). -/
def rule3 : Regex :=
  .group 3 (seqs [lineStartOrNl, repB (rAnyOf [' ', '\t']) 0 3, listMarker,
    rplus (rAnyOf [' ', '\t']),
    build_sentence_pattern TextConstants.MAX_LIST_ITEM_LENGTH,
    ropt (.seq (repB (listNested 2 5) 0 TextConstants.MAX_NESTED_LIST_ITEMS)
               (repB (listNested 4 TextConstants.MAX_LIST_INDENT_SPACES) 0
                 TextConstants.MAX_NESTED_LIST_ITEMS))])

/-- Rule 4 (blockquotes, lines 155-159); the `\s{2,}` nesting marker is
unbounded. -/
def rule4 : Regex :=
  .group 4 (repB
    (seqs [.lineStart, rchar '>', repB (.altL [rchar '>', repMin spaceCls 2]) 0 2,
           build_sentence_pattern TextConstants.MAX_BLOCKQUOTE_LINE_LENGTH, optCRNl])
    1 TextConstants.MAX_BLOCKQUOTE_LINES)

/-- A code fence: three backticks or three tildes. -/
def fenceMark : Regex := .altL [rlit [btChar, btChar, btChar], rstr "~~~"]

/-- Rule 5, first alternative: fenced code blocks (lines 163-170). -/
def rule5Fenced : Regex :=
  seqs [.altL [.lineStart, .cls (fun c => c == '\r' || c == '\n')], fenceMark,
        ropt (repB (.cls isWordChar) 0 TextConstants.MAX_CODE_LANGUAGE_LENGTH), crlf,
        repL anyCls 0 TextConstants.MAX_CODE_BLOCK_LENGTH, fenceMark, optCRNl]

/-- Rule 5, second alternative (lines 173-178): the source writes
`f"(?: {4}|\t)"`, whose f-string field evaluates to `4`; VERBOSE then strips
the space, so the indent marker is a literal `4` or a tab. -/
def rule5Indented : Regex :=
  seqs [lineStartOrNl, .altL [rchar '4', rchar '\t'],
        repB nonNl 0 TextConstants.MAX_LIST_ITEM_LENGTH,
        repB (seqs [crlf, .altL [rchar '4', rchar '\t'],
                    repB nonNl 0 TextConstants.MAX_LIST_ITEM_LENGTH])
          0 TextConstants.MAX_INDENTED_CODE_LINES,
        optCRNl]

/-- Rule 5, third alternative: HTML `<pre>`/`<code>` blocks (line 181). -/
def rule5Pre : Regex :=
  seqs [rstr "<pre>", ropt (rstr "<code>"), repL anyCls 0 TextConstants.MAX_CODE_BLOCK_LENGTH,
        ropt (rstr "</code>"), rstr "</pre>"]

/-- Rule 5 (code blocks, lines 162-182). -/
def rule5 : Regex := .group 5 (.altL [rule5Fenced, rule5Indented, rule5Pre])

/-- Rule 6 (tables, lines 185-191); `(?:^|\r?\n)` applies to both the pipe
table and the HTML table. -/
def rule6 : Regex :=
  .group 6 (.seq lineStartOrNl (.altL [
    seqs [rchar '|', repB nonNl 0 TextConstants.MAX_TABLE_CELL_LENGTH, rchar '|',
          repB (seqs [crlf, rchar '|', repB (rAnyOf ['-', ':']) 1 TextConstants.MAX_TABLE_CELL_LENGTH,
                      rchar '|']) 0 1,
          repB (seqs [crlf, rchar '|', repB nonNl 0 TextConstants.MAX_TABLE_CELL_LENGTH, rchar '|'])
            0 TextConstants.MAX_TABLE_ROWS],
    seqs [rstr "<table>", repL anyCls 0 TextConstants.MAX_HTML_TABLE_LENGTH, rstr "</table>"]]))

/-- Rule 7 (horizontal rules, line 195). -/
def rule7 : Regex :=
  .group 7 (.altL [
    seqs [.lineStart, repMin (rAnyOf ['-', '*', '_']) TextConstants.MIN_HORIZONTAL_RULE_LENGTH,
          rstar spaceCls, .lineEnd],
    seqs [rstr "<hr", rstar spaceCls, ropt (rchar '/'), rchar '>']])

/-- Rule 8 (standalone lines, lines 199-204). -/
def rule8 : Regex :=
  .group 8 (seqs [.lookAhead false AVOID_AT_START, .lineStart,
    ropt (seqs [rchar '<', alphaCls,
                repB (rNoneOf ['>']) 0 TextConstants.MAX_HTML_TAG_ATTRIBUTES_LENGTH, rchar '>']),
    build_sentence_pattern TextConstants.MAX_STANDALONE_LINE_LENGTH,
    ropt (seqs [rstr "</", rplus alphaCls, rchar '>']), crlfOrEnd])

/-- Rule 9 (punctuated sentences, lines 207-210). -/
def rule9 : Regex :=
  .group 9 (.seq (.lookAhead false AVOID_AT_START)
    (build_sentence_pattern TextConstants.MAX_SENTENCE_LENGTH))

/-- `(?<!\w)`. -/
def nlbWord : Regex := .lookBehind false 1 (.cls isWordChar)

/-- `(?!\w)`. -/
def nlaWord : Regex := .lookAhead false (.cls isWordChar)

/-- Rule 10, branch 2 (line 216): after the damage the branch is a quote
character, one non-newline character, the `{(0,{300})}` junk, then `\1` —
a backreference to capture group 1, which is rule 1's wrapper group and is
never set while this branch is tried, so the branch can never match. -/
def rule10SameQuote : Regex :=
  seqs [nlbWord, rAnyOf [sqChar, '"', btChar], nonNl,
        dmg 12 TextConstants.MAX_QUOTED_TEXT_LENGTH, .backref 1, nlaWord]

/-- Rule 10 (quoted/bracketed/inline-math spans, lines 213-230), with the
eight branches in declaration order and the damaged `{(0,{N})}` fragments
(stray groups 11-22). -/
def rule10 : Regex :=
  .group 10 (.altL [
    seqs [nlbWord, rstr "\"\"\"", rNoneOf ['"'], dmg 11 TextConstants.MAX_QUOTED_TEXT_LENGTH,
          rstr "\"\"\"", nlaWord],
    rule10SameQuote,
    seqs [nlbWord, rchar btChar, nonNl, dmg 13 TextConstants.MAX_QUOTED_TEXT_LENGTH,
          rchar sqChar, nlaWord],
    seqs [nlbWord, rlit [btChar, btChar], nonNl, dmg 14 TextConstants.MAX_QUOTED_TEXT_LENGTH,
          rlit [sqChar, sqChar], nlaWord],
    seqs [rchar '(', .cls (fun c => !(c == '\r' || c == '\n' || c == '(' || c == ')')),
          dmg 15 TextConstants.MAX_PARENTHETICAL_CONTENT_LENGTH,
          repB (seqs [rchar '(', .cls (fun c => !(c == '\r' || c == '\n' || c == '(' || c == ')')),
                      dmg 16 TextConstants.MAX_PARENTHETICAL_CONTENT_LENGTH, rchar ')',
                      .cls (fun c => !(c == '\r' || c == '\n' || c == '(' || c == ')')),
                      dmg 17 TextConstants.MAX_PARENTHETICAL_CONTENT_LENGTH])
            0 TextConstants.MAX_NESTED_PARENTHESES,
          rchar ')'],
    seqs [rchar '[', .cls (fun c => !(c == '\r' || c == '\n' || c == '[' || c == ']')),
          dmg 18 TextConstants.MAX_PARENTHETICAL_CONTENT_LENGTH,
          repB (seqs [rchar '[', .cls (fun c => !(c == '\r' || c == '\n' || c == '[' || c == ']')),
                      dmg 19 TextConstants.MAX_PARENTHETICAL_CONTENT_LENGTH, rchar ']',
                      .cls (fun c => !(c == '\r' || c == '\n' || c == '[' || c == ']')),
                      dmg 20 TextConstants.MAX_PARENTHETICAL_CONTENT_LENGTH])
            0 TextConstants.MAX_NESTED_PARENTHESES,
          rchar ']'],
    seqs [rchar '$', .cls (fun c => !(c == '\r' || c == '\n' || c == '$')),
          dmg 21 TextConstants.MAX_MATH_INLINE_LENGTH, rchar '$'],
    seqs [rchar btChar, .cls (fun c => !(c == btChar || c == '\r' || c == '\n')),
          dmg 22 TextConstants.MAX_MATH_INLINE_LENGTH, rchar btChar]])

/-- Rule 11 (paragraphs, lines 234-237); wrapper group 23 after the twelve
stray groups of rule 10. -/
def rule11 : Regex :=
  .group 23 (seqs [.lookAhead false AVOID_AT_START, .altL [.lineStart, .seq crlf crlf],
    ropt (rstr "<p>"), build_sentence_pattern TextConstants.MAX_PARAGRAPH_LENGTH,
    ropt (rstr "</p>"), .lookAhead true (.altL [.seq crlf crlf, .lineEnd])])

/-- Rule 12 (HTML elements, lines 240-243), damaged: one `[^>]` character,
the `{(0,{100})}` junk (group 25), then either `>`, one `[\s\S]` character,
`{(0,{1000})}?` junk (group 26, optional closing brace), a closing tag — or
`\s*/>`. -/
def rule12 : Regex :=
  .group 24 (seqs [rchar '<', alphaCls, rNoneOf ['>'],
    dmg 25 TextConstants.MAX_HTML_TAG_ATTRIBUTES_LENGTH,
    .altL [seqs [rchar '>', anyCls, dmgOpt 26 TextConstants.MAX_HTML_TAG_CONTENT_LENGTH,
                 rstr "</", rplus alphaCls, rchar '>'],
           seqs [rstar spaceCls, rchar '/', rchar '>']]])

/-- Rule 13 (math blocks, lines 246-249), damaged like rule 12 (stray
groups 28, 29). -/
def rule13 : Regex :=
  .group 27 (.altL [
    seqs [rchar '$', rchar '$', anyCls, dmgOpt 28 TextConstants.MAX_MATH_BLOCK_LENGTH,
          rchar '$', rchar '$'],
    seqs [rchar '$', .cls (fun c => !(c == '$' || c == '\r' || c == '\n')),
          dmg 29 TextConstants.MAX_MATH_INLINE_LENGTH, rchar '$']])

/-- Rule 14 (fallback, lines 252-255); wrapper group 30. -/
def rule14 : Regex :=
  .group 30 (.seq (.lookAhead false AVOID_AT_START)
    (build_sentence_pattern TextConstants.MAX_STANDALONE_LINE_LENGTH))

/-- The 14 rules in priority (declaration) order. -/
def rules : List Regex :=
  [rule1, rule2, rule3, rule4, rule5, rule6, rule7, rule8, rule9, rule10,
   rule11, rule12, rule13, rule14]

/-- The branch of rule `k` (1-based); out-of-range indices give a
never-matching pattern. -/
def ruleBranch (k : Nat) : Regex := rules.getD (k - 1) (.cls (fun _ => false))

/-- The full compiled alternation `(rule1)|(rule2)|...|(rule14)`
(`_build_full_regex`, line 260). -/
def fullRegex : Regex := .altL rules

/-! ## `TextChunk`, the `finditer` scan, and chunk typing
(`tokenizer.py` lines 22-28, 279-301, 333-347) -/

/-- `TextChunk` (`tokenizer.py` lines 22-28). -/
structure TextChunk where
  content : String
  chunk_type : String
  start_pos : Nat
  end_pos : Nat
deriving Repr, DecidableEq

/-- The number of capture groups of the compiled pattern: 14 wrappers plus
16 stray groups from the damaged fragments (checked below against
`groupIdxsList fullRegex`). -/
def numGroups : Nat := 30

/-- Scan group indices `i, i+1, ...` (for `n` steps) for the first one with
a recorded capture. -/
def firstNonNone (caps : List (Nat × Nat × Nat)) : Nat → Nat → Option Nat
  | 0, _ => none
  | Nat.succ n, i => if (lookupCap i caps).isSome then some i else firstNonNone caps n (i + 1)

/-- `_determine_chunk_type` (lines 296-301): iterate over `match.groups()`
(groups 1 to 30 in order) and return `Type_{i+1}` for the first group that
is not `None`. -/
def determine_chunk_type (caps : List (Nat × Nat × Nat)) : String :=
  match firstNonNone caps numGroups 1 with
  | some i => "Type_" ++ toString i
  | none => "Unknown"

/-- Python slicing `l[a:b]` for `0 ≤ a ≤ b ≤ len`. -/
def sliceList (l : List Char) (a b : Nat) : List Char := (l.drop a).take (b - a)

/-- Fuel used by the scanner: generous with respect to the recursion depth
the pattern can reach on the given text (depth is bounded by pattern depth
plus the number of repetition iterations, each of which consumes input or a
bounded counter). -/
def textFuel (text : List Char) : Nat := 100000 + 10 * text.length

/-- One match attempt at a fixed position: the first state (in backtracking
order) the full pattern reaches from `pos` with no captures recorded. -/
def regexSearch (text : List Char) (pos : Nat) : Option MState :=
  (ml text (textFuel text) fullRegex { pos := pos, caps := [] }).head?

/-- The leftmost match at or after `pos`: try successive start positions,
as the underlying `regex.finditer` does. -/
def searchFrom (text : List Char) : Nat → Nat → Option (Nat × MState)
  | 0, _ => none
  | Nat.succ n, pos =>
    match regexSearch text pos with
    | some st => some (pos, st)
    | none => if pos < text.length then searchFrom text n (pos + 1) else none

/-- The match sequence of `regex.finditer`: after a match `[s, e)` the scan
resumes at `e`, or at `e + 1` if the match was empty. -/
def finditer (text : List Char) : Nat → Nat → List (Nat × MState)
  | 0, _ => []
  | Nat.succ n, pos =>
    match searchFrom text (text.length + 1 - pos) pos with
    | none => []
    | some (s, st) =>
      (s, st) :: finditer text n (if st.pos = s then st.pos + 1 else st.pos)

/-- The chunk list built by the `for match in self.regex.finditer(content)`
loop shared by `process_str` and `process_file` (lines 279-286, 339-347):
`content = match.group(0)` (the matched slice), `chunk_type` from
`_determine_chunk_type`, and the match span as `start_pos`/`end_pos`. -/
def scanChunks (content : List Char) : List TextChunk :=
  (finditer content (content.length + 2) 0).map (fun pr =>
    { content := String.mk (sliceList content pr.1 pr.2.pos),
      chunk_type := determine_chunk_type pr.2.caps,
      start_pos := pr.1,
      end_pos := pr.2.pos })

/-! ## JSON-shaped responses (`tokenizer.py` lines 264-276, 303-331, 333-365)

Timing and memory measurement are environment effects; the formatted
`execution_time` and `memory_used` strings are taken as parameters.  File
reading is modelled by a function from paths to outcomes. -/

/-- A JSON value (the shape of the dictionaries the chunker returns). -/
inductive JVal where
  | jstr : String → JVal
  | jnum : Nat → JVal
  | jarr : List JVal → JVal
  | jobj : List (String × JVal) → JVal

/-- Field lookup in a JSON object (`none` on non-objects). -/
def objLookup (key : String) : JVal → Option JVal
  | .jobj fields => fields.lookup key
  | _ => none

/-- Serialization of one chunk (lines 305-313). -/
def chunkJson (c : TextChunk) : JVal :=
  .jobj [("content", .jstr c.content), ("chunk_type", .jstr c.chunk_type),
         ("start_pos", .jnum c.start_pos), ("end_pos", .jnum c.end_pos)]

/-- `_build_json_response` (lines 303-322). -/
def build_json_response (chunks : List TextChunk) (execTime memUsed : String) : JVal :=
  .jobj [("chunks", .jarr (chunks.map chunkJson)),
         ("info", .jobj [("execution_time", .jstr execTime),
                         ("memory_used", .jstr memUsed),
                         ("chunk_count", .jnum chunks.length)])]

/-- An error response: empty chunk list and an `info` dictionary holding
only the error message. -/
def errorResponse (msg : String) : JVal :=
  .jobj [("chunks", .jarr []), ("info", .jobj [("error", .jstr msg)])]

/-- Outcome of reading a file as UTF-8. -/
inductive FileOutcome where
  | ok : String → FileOutcome
  | notFound : FileOutcome
  | decodeErr : FileOutcome

/-- A quote character as a string, for building the error messages. -/
def sqStr : String := String.mk [sqChar]

/-- `process_str` (lines 333-355). -/
def process_str (content : String) (execTime memUsed : String) : JVal :=
  build_json_response (scanChunks content.data) execTime memUsed

/-- `process_file` (lines 264-294): a missing or undecodable file yields an
error response; otherwise the content is scanned like a string. -/
def process_file (readFile : String → FileOutcome) (filepath : String)
    (execTime memUsed : String) : JVal :=
  match readFile filepath with
  | .notFound => errorResponse ("File " ++ sqStr ++ filepath ++ sqStr ++ " not found.")
  | .decodeErr => errorResponse ("File " ++ sqStr ++ filepath ++ sqStr ++ " encoding error.")
  | .ok content => process_str content execTime memUsed

/-- The invalid-input-type error message of `process` (line 365). -/
def invalidTypeMsg : String :=
  "Invalid input type, must be " ++ sqStr ++ "file" ++ sqStr ++ " or " ++
    sqStr ++ "string" ++ sqStr ++ "."

/-- `process` (lines 357-365). -/
def process (readFile : String → FileOutcome) (input_data : String)
    (input_type : String) (execTime memUsed : String) : JVal :=
  if input_type == "file" then process_file readFile input_data execTime memUsed
  else if input_type == "string" then process_str input_data execTime memUsed
  else errorResponse invalidTypeMsg

/-! ## Engine lemmas -/

theorem runLen_acc (text : List Char) (p : Char → Bool) :
    ∀ cap pos acc, runLen text p pos cap acc = acc + runLen text p pos cap 0 := by
  intro cap
  induction cap with
  | zero => intro pos acc; simp [runLen]
  | succ cap ih =>
    intro pos acc
    simp only [runLen]
    cases hx : text[pos]? with
    | none => simp
    | some c =>
      by_cases hp : p c
      · simp only [hp, if_pos]
        rw [ih pos.succ acc.succ, ih pos.succ 1]
        omega
      · simp [hp]

theorem range'_shift_map {α : Type} (f : Nat → α) :
    ∀ n s, (List.range' (s + 1) n).map f = (List.range' s n).map (fun k => f (k + 1)) := by
  intro n
  induction n with
  | zero => intro s; simp
  | succ n ih =>
    intro s
    rw [List.range'_succ, List.range'_succ, List.map_cons, List.map_cons, ih (s + 1)]

theorem clsRepStates_succ (st : MState) (lo m : Nat) (mf : Bool) :
    clsRepStates st lo (m + 1) mf =
      (if mf then (if lo = 0 then [st] else []) ++
          clsRepStates { st with pos := st.pos + 1 } (lo - 1) m mf
       else clsRepStates { st with pos := st.pos + 1 } (lo - 1) m mf ++
          (if lo = 0 then [st] else [])) := by
  rcases Nat.eq_zero_or_pos lo with hlo | hlo
  · subst hlo
    simp only [clsRepStates, Nat.not_lt_zero, if_neg, if_pos rfl, Nat.zero_sub,
      Nat.sub_zero, ite_false, ite_true]
    have h1 : List.range' 0 (m + 1 + 1) = 0 :: List.range' 1 (m + 1) := by
      simpa using List.range'_succ 0 (m + 1) 1
    have h2 : (List.range' 1 (m + 1)).map (fun k => ({ st with pos := st.pos + k } : MState)) =
        (List.range' 0 (m + 1)).map
          (fun k => ({ st with pos := st.pos + 1 + k } : MState)) := by
      rw [show (1 : Nat) = 0 + 1 from rfl, range'_shift_map]
      apply List.map_congr_left
      intro k _
      simp [Nat.add_comm, Nat.add_assoc, Nat.add_left_comm]
    have h0 : ({ st with pos := st.pos + 0 } : MState) = st := by simp
    cases mf with
    | false =>
      simp only [Bool.false_eq_true, ite_false]
      rw [h1, List.reverse_cons, List.map_append, List.map_reverse, h2,
        ← List.map_reverse]
      simp [h0]
    | true =>
      simp only [ite_true]
      rw [h1, List.map_cons, h0, h2]
      simp
  · have hlop : ¬ (lo = 0) := Nat.ne_of_gt hlo
    by_cases hm : m + 1 < lo
    · have hm' : m < lo - 1 := by omega
      simp [clsRepStates, if_pos hm, if_pos hm', hlop]
    · have hm' : ¬ (m < lo - 1) := by omega
      simp only [clsRepStates, if_neg hm, if_neg hm', hlop, ite_false]
      have hlen : m + 1 + 1 - lo = m + 1 - (lo - 1) := by omega
      have h2 : (List.range' lo (m + 1 + 1 - lo)).map
            (fun k => ({ st with pos := st.pos + k } : MState)) =
          (List.range' (lo - 1) (m + 1 - (lo - 1))).map
            (fun k => ({ st with pos := st.pos + 1 + k } : MState)) := by
        rw [hlen, show lo = (lo - 1) + 1 by omega, range'_shift_map]
        apply List.map_congr_left
        intro k _
        simp [Nat.add_comm, Nat.add_assoc, Nat.add_left_comm]
      cases mf with
      | false =>
        simp only [Bool.false_eq_true, ite_false, List.append_nil]
        rw [List.map_reverse, h2, ← List.map_reverse]
      | true =>
        simp only [ite_true, List.nil_append]
        exact h2

/-- Faithfulness of the `repCls` shortcut: with enough fuel, the general
iterated repetition of a character class computes exactly the list of
count-states that `repCls` produces (same elements, same backtracking
order). -/
theorem ml_repCls_general (text : List Char) (p : Char → Bool) :
    ∀ f lo hi mf st,
      runLen text p st.pos (capOf text hi st.pos) 0 + 2 ≤ f →
      ml text f (.rep (.cls p) lo hi mf) st = ml text f (.repCls p lo hi mf) st := by
  intro f
  induction f using Nat.strong_induction_on with
  | _ f ihf =>
    intro lo hi mf st hfuel
    cases f with
    | zero => omega
    | succ f =>
    cases hn : runLen text p st.pos (capOf text hi st.pos) 0 with
    | zero =>
      have hrc : ml text (Nat.succ f) (.repCls p lo hi mf) st =
          if lo = 0 then [st] else [] := by
        simp only [ml, hn, clsRepStates]
        rcases Nat.eq_zero_or_pos lo with h0 | h0
        · simp [h0, List.range'_succ]
        · simp [Nat.ne_of_gt h0, if_pos h0]
      have hclsempty : 1 ≤ capOf text hi st.pos → ml text f (.cls p) st = [] := by
        intro h1
        cases f with
        | zero => simp [ml]
        | succ f =>
          simp only [ml]
          cases hx : text[st.pos]? with
          | none => simp
          | some c =>
            by_cases hp : p c
            · exfalso
              rcases hcape : capOf text hi st.pos with _ | cap2
              · omega
              · rw [hcape] at hn
                simp only [runLen, hx, hp, if_pos] at hn
                rw [runLen_acc] at hn
                omega
            · simp [hp]
      rw [hrc]
      simp only [ml]
      cases hi with
      | none =>
        have hnil : ml text f (.cls p) st = [] := by
          by_cases hlt : st.pos < text.length
          · exact hclsempty (by simp only [capOf]; omega)
          · cases f with
            | zero => simp [ml]
            | succ f =>
              simp only [ml]
              rw [List.getElem?_eq_none (by omega)]
        simp only [hnil, List.flatMap_nil]
        cases mf <;> simp
      | some h =>
        cases h with
        | zero =>
          cases mf <;> simp
        | succ h2 =>
          have hnil : ml text f (.cls p) st = [] :=
            hclsempty (by simp [capOf])
          simp only [hnil, List.flatMap_nil]
          cases mf <;> simp
    | succ m =>
      have hcap1 : 1 ≤ capOf text hi st.pos := by
        by_contra hc
        have h0 : capOf text hi st.pos = 0 := by omega
        rw [h0] at hn
        simp [runLen] at hn
      obtain ⟨c, hx, hp⟩ : ∃ c, text[st.pos]? = some c ∧ p c = true := by
        rcases hcape : capOf text hi st.pos with _ | cap2
        · omega
        · rw [hcape] at hn
          simp only [runLen] at hn
          cases hx : text[st.pos]? with
          | none => rw [hx] at hn; simp at hn
          | some c =>
            rw [hx] at hn
            by_cases hp : p c
            · exact ⟨c, rfl, hp⟩
            · simp [hp] at hn
      have hcls : ml text f (.cls p) st = [{ st with pos := st.pos + 1 }] := by
        cases f with
        | zero => omega
        | succ f => simp [ml, hx, hp]
      have hruntail : runLen text p (st.pos + 1)
          (capOf text (Option.map (fun h => h - 1) hi) (st.pos + 1)) 0 = m := by
        have hcap2 : capOf text (Option.map (fun h => h - 1) hi) (st.pos + 1) =
            capOf text hi st.pos - 1 := by
          cases hi with
          | none =>
            show text.length - (st.pos + 1) = text.length - st.pos - 1
            omega
          | some h => simp [capOf]
        rw [hcap2]
        rcases hcape : capOf text hi st.pos with _ | cap2
        · omega
        · rw [hcape] at hn
          simp only [runLen, hx, hp, if_pos] at hn
          rw [runLen_acc] at hn
          have he : cap2 + 1 - 1 = cap2 := by omega
          rw [he]
          omega
      have ihtail :
          ml text f (.rep (.cls p) (lo - 1) (Option.map (fun h => h - 1) hi) mf)
              { st with pos := st.pos + 1 } =
            ml text f (.repCls p (lo - 1) (Option.map (fun h => h - 1) hi) mf)
              { st with pos := st.pos + 1 } := by
        apply ihf f (by omega)
        rw [hruntail]
        omega
      have hrctail :
          ml text f (.repCls p (lo - 1) (Option.map (fun h => h - 1) hi) mf)
              { st with pos := st.pos + 1 } =
            clsRepStates { st with pos := st.pos + 1 } (lo - 1) m mf := by
        cases f with
        | zero => omega
        | succ f =>
          simp only [ml]
          rw [hruntail]
      have hrc : ml text (Nat.succ f) (.repCls p lo hi mf) st =
          clsRepStates st lo (m + 1) mf := by
        simp only [ml, hn]
      rw [hrc]
      simp only [ml, hcls, List.flatMap_cons, List.flatMap_nil, List.append_nil]
      cases hi with
      | none =>
        cases mf <;> simp [clsRepStates_succ] <;> exact ihtail.trans hrctail
      | some h =>
        have hh : decide (0 < h) = true := by
          simp only [capOf] at hcap1
          simp only [decide_eq_true_eq]
          omega
        cases mf <;> simp [hh, clsRepStates_succ] <;> exact ihtail.trans hrctail

theorem nullableBL_of_mem {r : Regex} {rs : List Regex} (hm : r ∈ rs)
    (hr : nullableB r = true) : nullableBL rs = true := by
  induction rs with
  | nil => cases hm
  | cons r1 rs ih =>
    rcases List.mem_cons.mp hm with h | h
    · subst h
      simp [nullableBL, hr]
    · simp [nullableBL, ih h]

theorem groupIdxs_of_memL {r : Regex} {rs : List Regex} (hm : r ∈ rs) {i : Nat}
    (hi : i ∈ groupIdxsList r) : i ∈ groupIdxsListL rs := by
  induction rs with
  | nil => cases hm
  | cons r1 rs ih =>
    rcases List.mem_cons.mp hm with h | h
    · subst h
      simp [groupIdxsListL, List.mem_append, hi]
    · simp [groupIdxsListL, List.mem_append, ih h]

/-- Case analysis for membership in a general repetition: the state either
stops here (allowed only when the minimum count is reached) or arises from
one body iteration followed by the decremented repetition. -/
theorem mem_ml_rep_cases {text : List Char} {f : Nat} {r1 : Regex} {lo : Nat}
    {hi : Option Nat} {mf : Bool} {st st' : MState}
    (h : st' ∈ ml text (Nat.succ f) (.rep r1 lo hi mf) st) :
    (lo = 0 ∧ st' = st) ∨
    ((∃ mid, mid ∈ ml text f r1 st ∧
      st' ∈ ml text f (.rep r1 (lo - 1) (Option.map (fun h2 => h2 - 1) hi) mf) mid) ∧
      (hi = none ∨ ∃ h2, hi = some h2 ∧ 0 < h2)) := by
  simp only [ml] at h
  cases mf with
  | false =>
    rw [if_neg (by simp : ¬ (false = true))] at h
    rcases List.mem_append.mp h with h1 | h1
    · split at h1
      · rename_i hc
        refine Or.inr ⟨List.mem_flatMap.mp h1, ?_⟩
        cases hi with
        | none => exact Or.inl rfl
        | some h2 => exact Or.inr ⟨h2, rfl, by simpa using hc⟩
      · simp at h1
    · by_cases hlo : lo = 0
      · rw [if_pos hlo] at h1
        simp at h1
        exact Or.inl ⟨hlo, h1⟩
      · rw [if_neg hlo] at h1
        simp at h1
  | true =>
    rw [if_pos rfl] at h
    rcases List.mem_append.mp h with h1 | h1
    · by_cases hlo : lo = 0
      · rw [if_pos hlo] at h1
        simp at h1
        exact Or.inl ⟨hlo, h1⟩
      · rw [if_neg hlo] at h1
        simp at h1
    · split at h1
      · rename_i hc
        refine Or.inr ⟨List.mem_flatMap.mp h1, ?_⟩
        cases hi with
        | none => exact Or.inl rfl
        | some h2 => exact Or.inr ⟨h2, rfl, by simpa using hc⟩
      · simp at h1

/-- The three structural invariants of the matcher, proved together by one
induction on fuel: positions never move backwards; a match that consumes
nothing forces the pattern to be nullable; and matching touches only the
capture groups occurring in the pattern. -/
theorem ml_invariants (text : List Char) :
    ∀ f r st st', st' ∈ ml text f r st →
      st.pos ≤ st'.pos ∧
      (st'.pos = st.pos → nullableB r = true) ∧
      (∀ i, i ∉ groupIdxsList r → lookupCap i st'.caps = lookupCap i st.caps) := by
  intro f
  induction f with
  | zero =>
    intro r st st' h
    simp [ml] at h
  | succ f ih =>
    intro r st st' h
    cases r with
    | eps =>
      simp only [ml, List.mem_singleton] at h
      subst h
      exact ⟨Nat.le_refl _, fun _ => rfl, fun i _ => rfl⟩
    | cls p =>
      simp only [ml] at h
      cases hx : text[st.pos]? with
      | none => rw [hx] at h; simp at h
      | some c =>
        rw [hx] at h
        by_cases hp : p c
        · simp only [hp, if_pos, List.mem_singleton] at h
          subst h
          refine ⟨Nat.le_succ _, fun he => ?_, fun i _ => rfl⟩
          simp at he
        · simp [hp] at h
    | seq a b =>
      simp only [ml, List.mem_flatMap] at h
      obtain ⟨mid, h1, h2⟩ := h
      obtain ⟨m1, n1, c1⟩ := ih a st mid h1
      obtain ⟨m2, n2, c2⟩ := ih b mid st' h2
      refine ⟨Nat.le_trans m1 m2, fun he => ?_, fun i hi => ?_⟩
      · have ha : mid.pos = st.pos := by omega
        have hb : st'.pos = mid.pos := by omega
        simp [nullableB, n1 ha, n2 hb]
      · simp only [groupIdxsList, List.mem_append] at hi
        push_neg at hi
        rw [c2 i hi.2, c1 i hi.1]
    | altL rs =>
      simp only [ml, List.mem_flatMap] at h
      obtain ⟨r1, hr1, h2⟩ := h
      obtain ⟨m1, n1, c1⟩ := ih r1 st st' h2
      refine ⟨m1, fun he => ?_, fun i hi => ?_⟩
      · exact nullableBL_of_mem hr1 (n1 he)
      · exact c1 i (fun hin => hi (groupIdxs_of_memL hr1 hin))
    | rep r1 lo hi mf =>
      rcases mem_ml_rep_cases h with ⟨hlo, rfl⟩ | ⟨⟨mid, h1, h2⟩, _⟩
      · exact ⟨Nat.le_refl _, fun _ => by simp [nullableB, hlo], fun i _ => rfl⟩
      · obtain ⟨m1, n1, c1⟩ := ih r1 st mid h1
        obtain ⟨m2, n2, c2⟩ := ih _ mid st' h2
        refine ⟨Nat.le_trans m1 m2, fun he => ?_, fun i hi => ?_⟩
        · have ha : mid.pos = st.pos := by omega
          simp [nullableB, n1 ha]
        · simp only [groupIdxsList] at hi
          rw [c2 i hi, c1 i hi]
    | repCls p lo hi mf =>
      simp only [ml, clsRepStates] at h
      split at h
      · simp at h
      · simp only [List.mem_map] at h
        obtain ⟨k, hk, rfl⟩ := h
        have hlo : lo ≤ k := by
          cases mf <;> simp at hk <;> omega
        refine ⟨Nat.le_add_right _ _, fun he => ?_, fun i _ => rfl⟩
        have he2 : st.pos + k = st.pos := he
        have hlo0 : lo = 0 := by omega
        simp [nullableB, hlo0]
    | lookAhead positive r1 =>
      simp only [ml] at h
      split at h <;> split at h <;> simp at h <;> subst h <;>
        exact ⟨Nat.le_refl _, fun _ => rfl, fun i _ => rfl⟩
    | lookBehind positive w r1 =>
      simp only [ml] at h
      split at h <;> simp at h
      subst h
      exact ⟨Nat.le_refl _, fun _ => rfl, fun i _ => rfl⟩
    | group g r1 =>
      simp only [ml, List.mem_map] at h
      obtain ⟨st1, h1, rfl⟩ := h
      obtain ⟨m1, n1, c1⟩ := ih r1 st st1 h1
      refine ⟨m1, fun he => ?_, fun i hi => ?_⟩
      · exact n1 he
      · simp only [groupIdxsList, List.mem_cons] at hi
        push_neg at hi
        simp only [lookupCap]
        rw [if_neg (Ne.symm hi.1)]
        exact c1 i hi.2
    | backref g =>
      simp only [ml] at h
      cases hl : lookupCap g st.caps with
      | none => rw [hl] at h; simp at h
      | some pr =>
        rw [hl] at h
        obtain ⟨s, e⟩ := pr
        simp only at h
        split at h
        · simp only [List.mem_singleton] at h
          subst h
          exact ⟨Nat.le_add_right _ _, fun _ => rfl, fun i _ => rfl⟩
        · simp at h
    | lineStart =>
      simp only [ml] at h
      split at h <;> [skip; split at h] <;> simp at h <;> subst h <;>
        exact ⟨Nat.le_refl _, fun _ => rfl, fun i _ => rfl⟩
    | lineEnd =>
      simp only [ml] at h
      split at h <;> [skip; split at h] <;> simp at h <;> subst h <;>
        exact ⟨Nat.le_refl _, fun _ => rfl, fun i _ => rfl⟩

/-- A state matched by a wrapped group records that group with the match
span. -/
theorem ml_group_caps {text : List Char} {f : Nat} {g : Nat} {r : Regex}
    {st st' : MState} (h : st' ∈ ml text f (.group g r) st) :
    lookupCap g st'.caps = some (st.pos, st'.pos) := by
  cases f with
  | zero => simp [ml] at h
  | succ f =>
    simp only [ml, List.mem_map] at h
    obtain ⟨st1, _, rfl⟩ := h
    simp [lookupCap]

/-- No alternative of the compiled pattern matches the empty string (every
rule contains a mandatory character). -/
theorem nullable_fullRegex : nullableB fullRegex = false := by rfl

/-- What a successful `searchFrom` yields: a start position no earlier than
the query position, and the head of the match list of the full pattern at
that start, from an empty capture state. -/
theorem searchFrom_inv (text : List Char) :
    ∀ n pos s st, searchFrom text n pos = some (s, st) →
      pos ≤ s ∧ st ∈ ml text (textFuel text) fullRegex { pos := s, caps := [] } := by
  intro n
  induction n with
  | zero =>
    intro pos s st h
    simp [searchFrom] at h
  | succ n ih =>
    intro pos s st h
    simp only [searchFrom] at h
    cases hr : regexSearch text pos with
    | some st1 =>
      rw [hr] at h
      simp only [Option.some.injEq] at h
      cases h
      exact ⟨Nat.le_refl _, List.mem_of_mem_head? (by simpa [regexSearch] using hr)⟩
    | none =>
      rw [hr] at h
      simp only at h
      split at h
      · obtain ⟨hle, hmem⟩ := ih (pos + 1) s st h
        exact ⟨by omega, hmem⟩
      · simp at h

/-- Every match pair produced by the `finditer` loop starts at or after the
query position and is the head of a full-pattern match from an empty capture
state; and consecutive pairs are ordered: the next start is at or after the
previous end and strictly after the previous start. -/
theorem finditer_inv (text : List Char) :
    ∀ n pos,
      (∀ pr ∈ finditer text n pos, pos ≤ pr.1 ∧
        pr.2 ∈ ml text (textFuel text) fullRegex { pos := pr.1, caps := [] }) ∧
      List.Chain' (fun a b : Nat × MState => a.2.pos ≤ b.1 ∧ a.1 < b.1)
        (finditer text n pos) := by
  intro n
  induction n with
  | zero =>
    intro pos
    simp [finditer]
  | succ n ih =>
    intro pos
    rw [finditer]
    cases hs : searchFrom text (text.length + 1 - pos) pos with
    | none => simp
    | some pr =>
      obtain ⟨s, st⟩ := pr
      simp only
      obtain ⟨hle, hmem⟩ := searchFrom_inv text _ pos s st hs
      have hsp : s ≤ st.pos := (ml_invariants text _ _ _ _ hmem).1
      have hnext : s < (if st.pos = s then st.pos + 1 else st.pos) := by
        split <;> omega
      obtain ⟨ihall, ihchain⟩ := ih (if st.pos = s then st.pos + 1 else st.pos)
      constructor
      · intro pr hpr
        rcases List.mem_cons.mp hpr with rfl | hpr
        · exact ⟨hle, hmem⟩
        · obtain ⟨h1, h2⟩ := ihall pr hpr
          refine ⟨?_, h2⟩
          have : pos ≤ st.pos := Nat.le_trans hle hsp
          split at h1 <;> omega
      · rw [List.chain'_cons']
        refine ⟨?_, ihchain⟩
        intro b hb
        have hbmem : b ∈ finditer text n (if st.pos = s then st.pos + 1 else st.pos) :=
          List.mem_of_mem_head? hb
        obtain ⟨h1, _⟩ := ihall b hbmem
        show st.pos ≤ b.1 ∧ s < b.1
        constructor
        · split at h1 <;> omega
        · omega

/-- Packaging of the scanner output: every chunk arises from one `finditer`
pair. -/
theorem scanChunks_mem {content : List Char} {c : TextChunk}
    (hc : c ∈ scanChunks content) :
    ∃ pr ∈ finditer content (content.length + 2) 0,
      c.content = String.mk (sliceList content pr.1 pr.2.pos) ∧
      c.chunk_type = determine_chunk_type pr.2.caps ∧
      c.start_pos = pr.1 ∧ c.end_pos = pr.2.pos := by
  simp only [scanChunks, List.mem_map] at hc
  obtain ⟨pr, hpr, rfl⟩ := hc
  exact ⟨pr, hpr, rfl, rfl, rfl, rfl⟩

/-! ## Claims -/

/-- C1: for every input text, the chunk sequence returned by a scan is
sorted by `start_pos` strictly ascending and adjacent chunks never overlap:
`chunk[i].end_pos ≤ chunk[i+1].start_pos` for every adjacent pair. -/
theorem C1_chunks_sorted_nonoverlapping (content : String) :
    List.Chain' (fun a b : TextChunk => a.end_pos ≤ b.start_pos ∧ a.start_pos < b.start_pos)
      (scanChunks content.data) := by
  have h := (finditer_inv content.data (content.data.length + 2) 0).2
  simp only [scanChunks]
  rw [List.chain'_map]
  exact List.Chain'.imp (fun a b hab => hab) h

/-- C2: for every input text, every chunk emitted by a scan carries as
`content` exactly the source slice `text[start_pos:end_pos]`. -/
theorem C2_chunks_content_fidelity (content : String) :
    (scanChunks content.data).Forall
      (fun c => c.content = String.mk (sliceList content.data c.start_pos c.end_pos)) := by
  rw [List.forall_iff_forall_mem]
  intro c hc
  obtain ⟨pr, _, h1, _, h3, h4⟩ := scanChunks_mem hc
  rw [h1, h3, h4]

/-- C3: for every input text, every chunk emitted by a scan has
`end_pos > start_pos`: no rule of the compiled pattern can match the empty
string, so no zero-length chunk is ever emitted. -/
theorem C3_chunks_nondegenerate (content : String) :
    (scanChunks content.data).Forall (fun c => c.start_pos < c.end_pos) := by
  rw [List.forall_iff_forall_mem]
  intro c hc
  obtain ⟨pr, hpr, _, _, h3, h4⟩ := scanChunks_mem hc
  obtain ⟨_, hmem⟩ := (finditer_inv content.data _ 0).1 pr hpr
  have hmono : pr.1 ≤ pr.2.pos := (ml_invariants content.data _ _ _ _ hmem).1
  have hnull := (ml_invariants content.data _ _ _ _ hmem).2.1
  rw [h3, h4]
  rcases Nat.lt_or_ge pr.1 pr.2.pos with hlt | hge
  · exact hlt
  · exfalso
    have heq : pr.2.pos = ({ pos := pr.1, caps := [] } : MState).pos := by
      show pr.2.pos = pr.1
      omega
    have := hnull heq
    rw [nullable_fullRegex] at this
    cases this

/-! ## Chunk typing (towards C4) -/

/-- The wrapper capture-group number of rule `k` (1-based): rules 1-10 own
groups 1-10; the twelve stray groups inside rule 10 and the two each inside
rules 12 and 13 push rules 11-14 to groups 23, 24, 27, 30. -/
def wrapIdx (k : Nat) : Nat :=
  [1, 2, 3, 4, 5, 6, 7, 8, 9, 10, 23, 24, 27, 30].getD (k - 1) 0

/-- The stable label `_determine_chunk_type` produces for a match of rule
`k`. -/
def ruleLabel (k : Nat) : String := "Type_" ++ toString (wrapIdx k)

theorem firstNonNone_eq (caps : List (Nat × Nat × Nat)) :
    ∀ n a j, a ≤ j → j < a + n →
      (∀ i, i < j → (lookupCap i caps).isSome = false) →
      (lookupCap j caps).isSome = true →
      firstNonNone caps n a = some j := by
  intro n
  induction n with
  | zero =>
    intro a j h1 h2 _ _
    omega
  | succ n ih =>
    intro a j h1 h2 hlow hj
    rw [firstNonNone]
    by_cases ha : (lookupCap a caps).isSome = true
    · have hje : j = a := by
        by_contra hne
        have hlt : a < j := by omega
        rw [hlow a hlt] at ha
        cases ha
      rw [if_pos ha, hje]
    · rw [if_neg ha]
      apply ih (a + 1) j ?_ (by omega) hlow hj
      rcases Nat.eq_or_lt_of_le h1 with he | hlt
      · exfalso
        rw [he] at ha
        exact ha hj
      · omega

theorem determine_of_group {caps : List (Nat × Nat × Nat)} {g a b : Nat}
    (hg1 : 1 ≤ g) (hg2 : g ≤ numGroups)
    (hset : lookupCap g caps = some (a, b))
    (hnone : ∀ j, j < g → (lookupCap j caps).isSome = false) :
    determine_chunk_type caps = "Type_" ++ toString g := by
  unfold determine_chunk_type
  rw [firstNonNone_eq caps numGroups 1 g hg1 (by omega) hnone (by rw [hset]; rfl)]

/-- A full-pattern match is a match of one of the 14 rule branches. -/
theorem branch_destruct {text : List Char} {f : Nat} {st st0 : MState}
    (hmem : st ∈ ml text f fullRegex st0) :
    ∃ k, 1 ≤ k ∧ k ≤ 14 ∧ ∃ f2, st ∈ ml text f2 (ruleBranch k) st0 := by
  cases f with
  | zero => simp [ml] at hmem
  | succ f =>
    simp only [fullRegex, ml, List.mem_flatMap] at hmem
    obtain ⟨r1, hr1, hm⟩ := hmem
    simp only [rules, List.mem_cons, List.not_mem_nil, or_false] at hr1
    rcases hr1 with rfl | rfl | rfl | rfl | rfl | rfl | rfl | rfl | rfl | rfl | rfl | rfl | rfl | rfl
    · exact ⟨1, by omega, by omega, f, hm⟩
    · exact ⟨2, by omega, by omega, f, hm⟩
    · exact ⟨3, by omega, by omega, f, hm⟩
    · exact ⟨4, by omega, by omega, f, hm⟩
    · exact ⟨5, by omega, by omega, f, hm⟩
    · exact ⟨6, by omega, by omega, f, hm⟩
    · exact ⟨7, by omega, by omega, f, hm⟩
    · exact ⟨8, by omega, by omega, f, hm⟩
    · exact ⟨9, by omega, by omega, f, hm⟩
    · exact ⟨10, by omega, by omega, f, hm⟩
    · exact ⟨11, by omega, by omega, f, hm⟩
    · exact ⟨12, by omega, by omega, f, hm⟩
    · exact ⟨13, by omega, by omega, f, hm⟩
    · exact ⟨14, by omega, by omega, f, hm⟩

/-- Matching rule `k` from an empty capture state yields captures whose
first recorded group (in the scan order of `_determine_chunk_type`) is the
wrapper group of rule `k`, so the chunk type is that rule's stable label. -/
theorem determine_of_branch {text : List Char} {f k s : Nat} {st : MState}
    (hk1 : 1 ≤ k) (hk2 : k ≤ 14)
    (hmem : st ∈ ml text f (ruleBranch k) { pos := s, caps := [] }) :
    determine_chunk_type st.caps = ruleLabel k := by
  have hlow : (groupIdxsList (ruleBranch k)).all (fun i => decide (wrapIdx k ≤ i)) = true := by
    interval_cases k <;> decide
  have hrange : 1 ≤ wrapIdx k ∧ wrapIdx k ≤ numGroups := by
    interval_cases k <;> decide
  have hset : lookupCap (wrapIdx k) st.caps = some (s, st.pos) := by
    interval_cases k <;> exact ml_group_caps hmem
  have hnone : ∀ j, j < wrapIdx k → (lookupCap j st.caps).isSome = false := by
    intro j hj
    have hni : j ∉ groupIdxsList (ruleBranch k) := by
      intro hmem2
      have := List.all_eq_true.mp hlow _ hmem2
      simp only [decide_eq_true_eq] at this
      omega
    have hagree := (ml_invariants text f _ _ _ hmem).2.2 j hni
    rw [hagree]
    rfl
  exact determine_of_group hrange.1 hrange.2 hset hnone

/-- C4: every chunk's `chunk_type` is determined by which of the 14
top-level alternatives produced the match — the first capture group that
participated is always the matched rule's wrapper group, whose number gives
the label — and the rule-to-label map is stable (a fixed function of the
rule index) and injective over the 14 rules.  (Because of the stray capture
groups inside rules 10, 12 and 13, the labels of rules 11-14 are `Type_23`,
`Type_24`, `Type_27` and `Type_30`.) -/
theorem C4_chunk_type_by_first_group (content : String) :
    ((scanChunks content.data).Forall (fun c => ∃ k, 1 ≤ k ∧ k ≤ 14 ∧
        c.chunk_type = ruleLabel k ∧
        ∃ f st, st ∈ ml content.data f (ruleBranch k)
            { pos := c.start_pos, caps := [] } ∧ st.pos = c.end_pos)) ∧
    (List.range' 1 14).Pairwise (fun i j => ruleLabel i ≠ ruleLabel j) := by
  constructor
  · rw [List.forall_iff_forall_mem]
    intro c hc
    obtain ⟨pr, hpr, _, h2, h3, h4⟩ := scanChunks_mem hc
    obtain ⟨_, hmem⟩ := (finditer_inv content.data _ 0).1 pr hpr
    obtain ⟨k, hk1, hk2, f2, hmem2⟩ := branch_destruct hmem
    refine ⟨k, hk1, hk2, ?_, f2, pr.2, ?_, ?_⟩
    · rw [h2]
      exact determine_of_branch hk1 hk2 hmem2
    · rw [h3]
      exact hmem2
    · exact h4.symm
  · decide

/-! ## Response-shape claims -/

/-- The shape C10 asserts: a dictionary with a `chunks` key bound to a list
and an `info` key bound to a dictionary. -/
def hasChunksInfoShape (v : JVal) : Prop :=
  (∃ l, objLookup "chunks" v = some (.jarr l)) ∧
  (∃ fields, objLookup "info" v = some (.jobj fields))

/-- C8: `process` never raises (it is a total function in this model) and
reports structured errors: any `input_type` other than `file` and `string`
yields the invalid-input-type response with an empty chunk list, and a
missing or undecodable file yields the corresponding error response with an
empty chunk list. -/
theorem C8_error_paths (readFile : String → FileOutcome) (d ty t m p : String) :
    (ty ≠ "file" → ty ≠ "string" →
      process readFile d ty t m = errorResponse invalidTypeMsg) ∧
    process (fun _ => .notFound) p "file" t m =
      errorResponse ("File " ++ sqStr ++ p ++ sqStr ++ " not found.") ∧
    process (fun _ => .decodeErr) p "file" t m =
      errorResponse ("File " ++ sqStr ++ p ++ sqStr ++ " encoding error.") := by
  refine ⟨fun h1 h2 => ?_, rfl, rfl⟩
  simp [process, h1, h2]

/-- Witness for C8 at concrete inputs. -/
theorem C8_error_paths_witness :
    process (fun _ => FileOutcome.notFound) "d" "xml" "t" "m" =
      errorResponse invalidTypeMsg ∧
    process (fun _ => FileOutcome.notFound) "p" "file" "t" "m" =
      errorResponse ("File " ++ sqStr ++ "p" ++ sqStr ++ " not found.") := by
  have h := C8_error_paths (fun _ => FileOutcome.notFound) "d" "xml" "t" "m" "p"
  exact ⟨h.1 (by decide) (by decide), h.2.1⟩

/-- C10: every value returned by `process`, `process_file` and
`process_str` — on success and on error paths — is a dictionary with a
`chunks` key bound to a list and an `info` key bound to a dictionary, and on
the success path `info.chunk_count` equals the length of the chunk list. -/
theorem C10_response_shape :
    (∀ (readFile : String → FileOutcome) (d ty t m : String),
      hasChunksInfoShape (process readFile d ty t m)) ∧
    (∀ s t m : String,
      (objLookup "info" (process_str s t m)).bind (objLookup "chunk_count") =
        some (.jnum (scanChunks s.data).length)) ∧
    (∀ (readFile : String → FileOutcome) (p t m : String),
      hasChunksInfoShape (process_file readFile p t m)) ∧
    (∀ (c p t m : String), process_file (fun _ => .ok c) p t m = process_str c t m) := by
  have hshapeStr : ∀ s t m : String, hasChunksInfoShape (process_str s t m) :=
    fun s t m => ⟨⟨_, rfl⟩, ⟨_, rfl⟩⟩
  have hshapeErr : ∀ msg : String, hasChunksInfoShape (errorResponse msg) :=
    fun msg => ⟨⟨_, rfl⟩, ⟨_, rfl⟩⟩
  have hshapeFile : ∀ (readFile : String → FileOutcome) (p t m : String),
      hasChunksInfoShape (process_file readFile p t m) := by
    intro readFile p t m
    unfold process_file
    cases readFile p
    · exact hshapeStr _ t m
    · exact hshapeErr _
    · exact hshapeErr _
  refine ⟨?_, fun s t m => rfl, hshapeFile, fun c p t m => rfl⟩
  intro readFile d ty t m
  unfold process
  by_cases h1 : ty == "file"
  · rw [if_pos h1]
    exact hshapeFile readFile d t m
  · rw [if_neg (by simpa using h1)]
    by_cases h2 : ty == "string"
    · rw [if_pos h2]
      exact hshapeStr d t m
    · rw [if_neg (by simpa using h2)]
      exact hshapeErr _

/-! ## Concrete-behavior claims -/

/-- A backreference to a group that has not captured fails. -/
theorem ml_backref_unset {text : List Char} {f i : Nat} {st : MState}
    (h : lookupCap i st.caps = none) : ml text f (.backref i) st = [] := by
  cases f with
  | zero => rfl
  | succ f => simp [ml, h]

/-- A chain of patterns none of which contains group 1, followed by a
backreference to group 1, matches nothing from a state in which group 1 is
unset. -/
theorem ml_seqs_unset_backref (text : List Char) (rest : List Regex) :
    ∀ (ps : List Regex) (f : Nat) (st : MState),
      (∀ r ∈ ps, (1 : Nat) ∉ groupIdxsList r) →
      lookupCap 1 st.caps = none →
      ml text f (seqs (ps ++ Regex.backref 1 :: rest)) st = [] := by
  intro ps
  induction ps with
  | nil =>
    intro f st _ hunset
    cases f with
    | zero => rfl
    | succ f =>
      show (ml text f (.backref 1) st).flatMap _ = []
      rw [ml_backref_unset hunset]
      rfl
  | cons a ps ih =>
    intro f st hg hunset
    cases f with
    | zero => rfl
    | succ f =>
      show (ml text f a st).flatMap _ = []
      rw [List.flatMap_eq_nil_iff]
      intro mid hmid
      have hmid1 : lookupCap 1 mid.caps = none := by
        rw [(ml_invariants text f a st mid hmid).2.2 1 (hg a (by simp)), hunset]
      exact ih f mid (fun r hr => hg r (by simp [hr])) hmid1

/-- C7: the same-quote-delimited branch of rule 10 can never match: its
`\1` refers to capture group 1 (rule 1's wrapper), which is unset whenever
this branch is tried, so the backreference always fails.  On the concrete
input quote-a-b-quote (apostrophe, a, b, apostrophe) the scan yields a
single sentence-type chunk `ab'` starting after the opening quote, and no
rule-10 chunk. -/
theorem C7_same_quote_branch_dead :
    (∀ (text : List Char) (f pos : Nat),
      ml text f rule10SameQuote { pos := pos, caps := [] } = []) ∧
    scanChunks [sqChar, 'a', 'b', sqChar] =
      [{ content := String.mk ['a', 'b', sqChar], chunk_type := "Type_9",
         start_pos := 1, end_pos := 4 }] := by
  constructor
  · intro text f pos
    have hshape : rule10SameQuote =
        seqs ([nlbWord, rAnyOf [sqChar, '"', btChar], nonNl,
               dmg 12 TextConstants.MAX_QUOTED_TEXT_LENGTH] ++
              Regex.backref 1 :: [nlaWord]) := rfl
    rw [hshape]
    apply ml_seqs_unset_backref
    · intro r hr
      simp only [List.mem_cons, List.not_mem_nil, or_false] at hr
      rcases hr with rfl | rfl | rfl | rfl <;> decide
    · rfl
  · decide

/-- C6: the indented-code alternative of rule 5 does not match 4-space
indents.  The f-string slip `(?: {4}|\t)` (which evaluates to `(?: 4|\t)`,
whose space VERBOSE then discards) makes the indent marker a literal `4` or
a tab: a 4-space-indented line yields only a sentence-type chunk covering
`x`, while a tab-indented line — and even a line starting with the digit
`4` — yields a code-block-type chunk. -/
theorem C6_four_space_indent_not_code :
    scanChunks "    x".data =
      [{ content := "x", chunk_type := "Type_9", start_pos := 4, end_pos := 5 }] ∧
    scanChunks "\tx".data =
      [{ content := "\tx", chunk_type := "Type_5", start_pos := 0, end_pos := 2 }] ∧
    scanChunks "4x".data =
      [{ content := "4x", chunk_type := "Type_5", start_pos := 0, end_pos := 2 }] := by
  exact ⟨by decide, by decide, by decide⟩

/-- C9: chunks need not tile the input.  On `,x.` no rule can match at
position 0 (the comma is in `AVOID_AT_START` and starts no rule), so the
scan emits the single chunk `x.` spanning `[1, 3)` and position 0 belongs
to no chunk: the union of the chunk spans is a proper subset of the input
positions. -/
theorem C9_gaps_are_skipped :
    scanChunks ",x.".data =
      [{ content := "x.", chunk_type := "Type_9", start_pos := 1, end_pos := 3 }] ∧
    (0 : Nat) < ",x.".data.length ∧
    (scanChunks ",x.".data).all
      (fun c => decide (0 < c.start_pos ∨ c.end_pos ≤ 0)) = true := by
  exact ⟨by decide, by decide, by decide⟩

/-! ## Static maximum match length (towards C5) -/

/-- Sum of optional bounds (`none` = unbounded). -/
def optAdd : Option Nat → Option Nat → Option Nat
  | some m, some n => some (m + n)
  | _, _ => none

/-- Maximum of optional bounds (`none` = unbounded). -/
def optMax : Option Nat → Option Nat → Option Nat
  | some m, some n => some (max m n)
  | _, _ => none

mutual
/-- The largest number of characters an expression can consume, when that
is statically bounded (`none` = unbounded: an unbounded repetition or a
backreference occurs). -/
def maxLenB : Regex → Option Nat
  | .eps => some 0
  | .cls _ => some 1
  | .seq a b => optAdd (maxLenB a) (maxLenB b)
  | .altL rs => maxLenBL rs
  | .rep r _ hi _ =>
    match hi with
    | some h => (maxLenB r).map (fun n => h * n)
    | none => none
  | .repCls _ _ hi _ => hi
  | .lookAhead _ _ => some 0
  | .lookBehind _ _ _ => some 0
  | .group _ r => maxLenB r
  | .backref _ => none
  | .lineStart => some 0
  | .lineEnd => some 0

/-- List version of `maxLenB` for the alternation constructor. -/
def maxLenBL : List Regex → Option Nat
  | [] => some 0
  | r :: rs => optMax (maxLenB r) (maxLenBL rs)
end

theorem maxLenBL_of_mem {r : Regex} {rs : List Regex} (hm : r ∈ rs) {n : Nat}
    (hn : maxLenBL rs = some n) : ∃ m, maxLenB r = some m ∧ m ≤ n := by
  induction rs generalizing n with
  | nil => cases hm
  | cons r1 rs ih =>
    rw [maxLenBL] at hn
    cases h1 : maxLenB r1 with
    | none => rw [h1] at hn; simp [optMax] at hn
    | some m1 =>
      rw [h1] at hn
      cases h2 : maxLenBL rs with
      | none => rw [h2] at hn; simp [optMax] at hn
      | some n1 =>
        rw [h2] at hn
        simp only [optMax, Option.some.injEq] at hn
        subst hn
        rcases List.mem_cons.mp hm with rfl | hmem
        · exact ⟨m1, h1, Nat.le_max_left _ _⟩
        · obtain ⟨m, hm2, hle⟩ := ih hmem h2
          exact ⟨m, hm2, Nat.le_trans hle (Nat.le_max_right _ _)⟩

theorem runLen_le (text : List Char) (p : Char → Bool) :
    ∀ cap pos acc, runLen text p pos cap acc ≤ acc + cap := by
  intro cap
  induction cap with
  | zero => intro pos acc; simp [runLen]
  | succ cap ih =>
    intro pos acc
    cases hx : text[pos]? with
    | none =>
      simp only [runLen, hx]
      omega
    | some c =>
      by_cases hp : p c
      · simp only [runLen, hx, hp, if_pos]
        have := ih (pos + 1) (acc + 1)
        omega
      · simp only [runLen, hx, if_neg hp]
        omega

/-- A match never consumes more characters than the static maximum. -/
theorem ml_maxLen (text : List Char) :
    ∀ f r st st', st' ∈ ml text f r st →
      ∀ n, maxLenB r = some n → st'.pos ≤ st.pos + n := by
  intro f
  induction f with
  | zero =>
    intro r st st' h
    simp [ml] at h
  | succ f ih =>
    intro r st st' h n hn
    cases r with
    | eps =>
      simp only [ml, List.mem_singleton] at h
      subst h
      omega
    | cls p =>
      simp only [ml] at h
      cases hx : text[st.pos]? with
      | none => rw [hx] at h; simp at h
      | some c =>
        rw [hx] at h
        by_cases hp : p c
        · simp only [hp, if_pos, List.mem_singleton] at h
          subst h
          simp only [maxLenB, Option.some.injEq] at hn
          show st.pos + 1 ≤ st.pos + n
          omega
        · simp [hp] at h
    | seq a b =>
      simp only [ml, List.mem_flatMap] at h
      obtain ⟨mid, h1, h2⟩ := h
      rw [maxLenB] at hn
      cases ha : maxLenB a with
      | none => rw [ha] at hn; simp [optAdd] at hn
      | some m1 =>
        rw [ha] at hn
        cases hb : maxLenB b with
        | none => rw [hb] at hn; simp [optAdd] at hn
        | some m2 =>
          rw [hb] at hn
          simp only [optAdd, Option.some.injEq] at hn
          have t1 := ih a st mid h1 m1 ha
          have t2 := ih b mid st' h2 m2 hb
          omega
    | altL rs =>
      simp only [ml, List.mem_flatMap] at h
      obtain ⟨r1, hr1, h2⟩ := h
      rw [maxLenB] at hn
      obtain ⟨m, hm, hle⟩ := maxLenBL_of_mem hr1 hn
      have := ih r1 st st' h2 m hm
      omega
    | rep r1 lo hi mf =>
      rcases mem_ml_rep_cases h with ⟨_, rfl⟩ | ⟨⟨mid, h1, h2⟩, hcond⟩
      · omega
      · rcases hcond with rfl | ⟨h2v, rfl, hpos⟩
        · exact Option.noConfusion (show (none : Option Nat) = some n from hn)
        · have hn2 : (maxLenB r1).map (fun m => h2v * m) = some n := hn
          cases hr : maxLenB r1 with
          | none => rw [hr] at hn2; simp at hn2
          | some m1 =>
            rw [hr] at hn2
            simp only [Option.map_some', Option.some.injEq] at hn2
            have t1 := ih r1 st mid h1 m1 hr
            have t2 := ih _ mid st' h2 ((h2v - 1) * m1)
              (show (maxLenB r1).map (fun m => (h2v - 1) * m) = some ((h2v - 1) * m1) from by
                rw [hr]
                rfl)
            have harith : (h2v - 1) * m1 + m1 = h2v * m1 := by
              rcases h2v with _ | h3
              · omega
              · simp [Nat.succ_sub_one, Nat.succ_mul]
            omega
    | repCls p lo hi mf =>
      simp only [ml, clsRepStates] at h
      split at h
      · simp at h
      · simp only [List.mem_map] at h
        obtain ⟨k, hk, rfl⟩ := h
        rw [maxLenB] at hn
        subst hn
        have hkle : k ≤ runLen text p st.pos (capOf text (some n) st.pos) 0 := by
          cases mf <;> simp at hk <;> omega
        have hrl := runLen_le text p (capOf text (some n) st.pos) st.pos 0
        have hcap : capOf text (some n) st.pos = n := rfl
        show st.pos + k ≤ st.pos + n
        omega
    | lookAhead positive r1 =>
      simp only [ml] at h
      split at h <;> split at h <;> simp at h <;> subst h <;> omega
    | lookBehind positive w r1 =>
      simp only [ml] at h
      split at h <;> simp at h
      subst h
      omega
    | group g r1 =>
      simp only [ml, List.mem_map] at h
      obtain ⟨st1, h1, rfl⟩ := h
      rw [maxLenB] at hn
      exact ih r1 st st1 h1 n hn
    | backref g =>
      rw [maxLenB] at hn
      simp at hn
    | lineStart =>
      simp only [ml] at h
      split at h <;> [skip; split at h] <;> simp at h <;> subst h <;> omega
    | lineEnd =>
      simp only [ml] at h
      split at h <;> [skip; split at h] <;> simp at h <;> subst h <;> omega

/-! ## C5: the heading-overrun counterexample

The HTML alternative of the heading rule, `<h[1-6][^>]*>`, repeats `[^>]`
without any bound: the code never applies `MAX_HTML_HEADING_ATTRIBUTES_LENGTH`
(or any other constant) to it.  A heading chunk can therefore grow past every
length the configured constants allow for rule 1.  The development below
derives the committed match of such an input symbolically (the long
attribute run is handled by induction, not by evaluating the scanner), so
the proof term stays small. -/

/-- `HeadML text f r st s`: matching `r` from `st` succeeds, and `s` is the
state the engine commits to (the head of the backtracking list). -/
def HeadML (text : List Char) (f : Nat) (r : Regex) (st s : MState) : Prop :=
  ∃ t, ml text f r st = s :: t

/-- A committed match of a full list equality. -/
theorem headml_of_eq {text : List Char} {f : Nat} {r : Regex} {st s : MState}
    {t : List MState} (h : ml text f r st = s :: t) : HeadML text f r st s :=
  ⟨t, h⟩

/-- `eps` commits to the unchanged state. -/
theorem headml_eps {text : List Char} {f : Nat} {st : MState} :
    HeadML text (f + 1) .eps st st :=
  ⟨[], rfl⟩

/-- Sequencing: the committed match of `a.seq b` is the committed match of
`b` from the committed match of `a` (earlier backtracking alternatives of
either part only contribute later list entries). -/
theorem headml_seq {text : List Char} {f : Nat} {a b : Regex} {st s1 s2 : MState} :
    HeadML text f a st s1 → HeadML text f b s1 s2 →
    HeadML text (f + 1) (.seq a b) st s2
  | ⟨t1, h1⟩, ⟨t2, h2⟩ =>
    ⟨t2 ++ t1.flatMap (fun st1 => ml text f b st1), by
      show (ml text f a st).flatMap (fun st1 => ml text f b st1) = _
      rw [h1, List.flatMap_cons, h2, List.cons_append]⟩

/-- Ordered alternation commits to the committed match of its first
alternative when that alternative matches. -/
theorem headml_alt_head {text : List Char} {f : Nat} {r : Regex} {rs : List Regex}
    {st s : MState} :
    HeadML text f r st s → HeadML text (f + 1) (.altL (r :: rs)) st s
  | ⟨t, h⟩ =>
    ⟨t ++ rs.flatMap (fun r1 => ml text f r1 st), by
      show (r :: rs).flatMap (fun r1 => ml text f r1 st) = _
      rw [List.flatMap_cons, h, List.cons_append]⟩

/-- Ordered alternation skips an alternative that does not match at all. -/
theorem headml_alt_skip {text : List Char} {f : Nat} {r : Regex} {rs : List Regex}
    {st s : MState} (h0 : ml text f r st = []) :
    HeadML text (f + 1) (.altL rs) st s → HeadML text (f + 1) (.altL (r :: rs)) st s
  | ⟨t, h⟩ =>
    ⟨t, by
      show (r :: rs).flatMap (fun r1 => ml text f r1 st) = _
      rw [List.flatMap_cons, h0, List.nil_append]
      exact h⟩

/-- A group records the span of its body's committed match. -/
theorem headml_group {text : List Char} {f : Nat} {i : Nat} {r : Regex} {st s : MState} :
    HeadML text f r st s →
    HeadML text (f + 1) (.group i r) st { s with caps := (i, st.pos, s.pos) :: s.caps }
  | ⟨t, h⟩ =>
    ⟨t.map (fun st1 => { st1 with caps := (i, st.pos, st1.pos) :: st1.caps }), by
      simp only [ml]
      rw [h, List.map_cons]⟩

/-- A greedy class repetition whose admissible counts reach `n ≥ lo` commits
to consuming all `n` characters; smaller counts follow as backtracking
alternatives. -/
theorem clsRepStates_greedy_head {st : MState} {lo n : Nat} (h : lo ≤ n) :
    clsRepStates st lo n false =
      { st with pos := st.pos + n } ::
        (List.range' lo (n - lo)).reverse.map (fun k => { st with pos := st.pos + k }) := by
  have h1 : n + 1 - lo = (n - lo) + 1 := by omega
  have h2 : lo + 1 * (n - lo) = n := by omega
  simp only [clsRepStates, Nat.not_lt.mpr h, if_false, Bool.false_eq_true]
  rw [h1, List.range'_concat, List.reverse_concat, List.map_cons, h2]

/-- One step of a run: the run length from `pos` extends by the character at
`pos` when it satisfies the class. -/
theorem runLen_step {text : List Char} {p : Char → Bool} {pos cap acc : Nat} {c : Char}
    (hg : text[pos]? = some c) (hp : p c = true) :
    runLen text p pos (cap + 1) acc = runLen text p (pos + 1) cap (acc + 1) := by
  simp only [runLen, hg, hp, if_true]

/-- A run stops at a character outside the class. -/
theorem runLen_stop {text : List Char} {p : Char → Bool} {pos cap acc : Nat} {c : Char}
    (hg : text[pos]? = some c) (hp : p c = false) :
    runLen text p pos (cap + 1) acc = acc := by
  simp only [runLen, hg, hp, if_false, Bool.false_eq_true]

/-- The C5 counterexample input: `<h1`, then 714 attribute characters, then
`>` and a one-character heading body — a 719-character HTML heading. -/
def c5Input : List Char :=
  "<h1".data ++ (List.replicate 714 'x' ++ ">x".data)

/-- The input has 719 characters. -/
theorem c5Input_length : c5Input.length = 719 := by
  rw [c5Input, List.length_append, List.length_append, List.length_replicate]
  rfl

/-- Every character of the attribute run is an `x`. -/
theorem c5Input_getElem_x {j : Nat} (hj : j < 714) : c5Input[3 + j]? = some 'x' := by
  have h3 : ("<h1".data).length = 3 := rfl
  rw [c5Input, List.getElem?_append_right (by rw [h3]; omega), h3, Nat.add_sub_cancel_left,
    List.getElem?_append, List.length_replicate, if_pos hj, List.getElem?_replicate, if_pos hj]

set_option maxRecDepth 2000000 in
/-- The attribute run of the counterexample input is exactly 714 long: `[^>]`
matches the 714 `x` characters and stops at the `>`.  Proven by induction on
the distance to the end of the run, so that checking it needs no long
evaluation. -/
theorem c5_runLen_attr_aux :
    ∀ d j, j + d = 714 →
      runLen c5Input (fun c => !(['>'].contains c)) (3 + j) (716 - j) j = 714 := by
  intro d
  induction d with
  | zero =>
    intro j hj
    obtain rfl : j = 714 := by omega
    have hcap : (716 : Nat) - 714 = 1 + 1 := by norm_num
    have hg : c5Input[3 + 714]? = some '>' := by decide
    have hp : (fun c => !(['>'].contains c)) '>' = false := by decide
    rw [hcap, runLen_stop hg hp]
  | succ d ih =>
    intro j hj
    have hj' : j < 714 := by omega
    have hcap : (716 : Nat) - j = (715 - j) + 1 := by omega
    rw [hcap, runLen_step (c5Input_getElem_x hj') (by decide)]
    have e1 : 3 + j + 1 = 3 + (j + 1) := by omega
    have e2 : (715 : Nat) - j = 716 - (j + 1) := by omega
    rw [e1, e2]
    exact ih (j + 1) (by omega)

/-- The attribute run from position 3 is 714 characters. -/
theorem c5_runLen_attr :
    runLen c5Input (fun c => !(['>'].contains c)) 3 716 0 = 714 :=
  c5_runLen_attr_aux 714 0 rfl

/-- The unbounded `[^>]*` commits to the whole 714-character attribute run. -/
theorem c5_attr_head (f : Nat) :
    HeadML c5Input (f + 1) (rstar (rNoneOf ['>']))
      { pos := 3, caps := [] } { pos := 717, caps := [] } := by
  have hcap : capOf c5Input none 3 = 716 := by
    show c5Input.length - 3 = 716
    rw [c5Input_length]
  refine ⟨(List.range' 0 714).reverse.map
    (fun k => { pos := 3 + k, caps := [] }), ?_⟩
  show clsRepStates { pos := 3, caps := [] } 0
      (runLen c5Input (fun c => !(['>'].contains c)) 3 (capOf c5Input none 3) 0) false = _
  rw [hcap, c5_runLen_attr, clsRepStates_greedy_head (Nat.zero_le 714)]

set_option maxRecDepth 2000000 in
/-- The full pattern commits, on the counterexample input from position 0,
to the heading match spanning the whole 719-character input, with group 1
(the heading wrapper) recording the span.  Each piece of rule 1 is settled
on its own (the short ones by evaluation, the attribute run symbolically)
and the pieces are chained by the committed-match lemmas; the thirteen
later rules are never evaluated, since ordered alternation commits to the
first alternative that matches. -/
theorem c5_match_head (f : Nat) :
    HeadML c5Input (f + 10) fullRegex { pos := 0, caps := [] }
      { pos := 719, caps := [(1, 0, 719)] } := by
  -- leaf pieces of rule 1, each generic in the fuel
  have pLS : ∀ g, ml c5Input (g + 1) .lineStart { pos := 0, caps := [] } =
      [{ pos := 0, caps := [] }] := fun g => rfl
  have pM1 : ∀ g, ml c5Input (g + 1)
      (repB (rAnyOf ['#', '*', '=', '-']) 1 TextConstants.MAX_HEADING_LENGTH)
      { pos := 0, caps := [] } = [] := fun g => rfl
  have pM2 : ∀ g, ml c5Input (g + 2)
      (seqs [.cls isWordChar, repB nonNl 0 TextConstants.MAX_HEADING_CONTENT_LENGTH, crlf,
        repB (rAnyOf ['-', '=']) 2 TextConstants.MAX_HEADING_UNDERLINE_LENGTH])
      { pos := 0, caps := [] } = [] := fun g => rfl
  have pLit : ∀ g, ml c5Input (g + 3) (rstr "<h") { pos := 0, caps := [] } =
      [{ pos := 2, caps := [] }] := fun g => rfl
  have pDig : ∀ g, ml c5Input (g + 1) (rAnyOf ['1', '2', '3', '4', '5', '6'])
      { pos := 2, caps := [] } = [{ pos := 3, caps := [] }] := fun g => rfl
  have pGt : ∀ g, ml c5Input (g + 1) (rchar '>') { pos := 717, caps := [] } =
      [{ pos := 718, caps := [] }] := fun g => rfl
  have pB : ∀ g, ml c5Input (g + 1)
      (repB nonNl 1 TextConstants.MAX_HEADING_CONTENT_LENGTH)
      { pos := 718, caps := [] } = [{ pos := 719, caps := [] }] := fun g => rfl
  have pC : ∀ g, ml c5Input (g + 4)
      (ropt (seqs [rstr "</h", rAnyOf ['1', '2', '3', '4', '5', '6'], rchar '>']))
      { pos := 719, caps := [] } = [{ pos := 719, caps := [] }] := fun g => rfl
  have pD : ∀ g, ml c5Input (g + 3) crlfOrEnd { pos := 719, caps := [] } =
      [{ pos := 719, caps := [] }] := fun g => rfl
  -- the HTML-heading alternative `<h[1-6][^>]*>` spans `[0, 718)`
  have hN1 : HeadML c5Input (f + 2) (.seq (rchar '>') .eps)
      { pos := 717, caps := [] } { pos := 718, caps := [] } :=
    headml_seq (headml_of_eq (pGt f)) headml_eps
  have hN2 : HeadML c5Input (f + 3)
      (.seq (rstar (rNoneOf ['>'])) (.seq (rchar '>') .eps))
      { pos := 3, caps := [] } { pos := 718, caps := [] } :=
    headml_seq (c5_attr_head (f + 1)) hN1
  have hN3 : HeadML c5Input (f + 4)
      (.seq (rAnyOf ['1', '2', '3', '4', '5', '6'])
        (.seq (rstar (rNoneOf ['>'])) (.seq (rchar '>') .eps)))
      { pos := 2, caps := [] } { pos := 718, caps := [] } :=
    headml_seq (headml_of_eq (pDig (f + 2))) hN2
  have hM3 : HeadML c5Input (f + 5)
      (seqs [rstr "<h", rAnyOf ['1', '2', '3', '4', '5', '6'],
        rstar (rNoneOf ['>']), rchar '>'])
      { pos := 0, caps := [] } { pos := 718, caps := [] } :=
    headml_seq (headml_of_eq (pLit (f + 1))) hN3
  -- the three-way marker alternation commits to the HTML alternative
  have hAlt : HeadML c5Input (f + 6)
      (.altL [repB (rAnyOf ['#', '*', '=', '-']) 1 TextConstants.MAX_HEADING_LENGTH,
        seqs [.cls isWordChar, repB nonNl 0 TextConstants.MAX_HEADING_CONTENT_LENGTH, crlf,
          repB (rAnyOf ['-', '=']) 2 TextConstants.MAX_HEADING_UNDERLINE_LENGTH],
        seqs [rstr "<h", rAnyOf ['1', '2', '3', '4', '5', '6'],
          rstar (rNoneOf ['>']), rchar '>']])
      { pos := 0, caps := [] } { pos := 718, caps := [] } :=
    headml_alt_skip (pM1 (f + 4))
      (headml_alt_skip (pM2 (f + 3)) (headml_alt_head hM3))
  have hA : HeadML c5Input (f + 7)
      (.seq .lineStart
        (.altL [repB (rAnyOf ['#', '*', '=', '-']) 1 TextConstants.MAX_HEADING_LENGTH,
          seqs [.cls isWordChar, repB nonNl 0 TextConstants.MAX_HEADING_CONTENT_LENGTH, crlf,
            repB (rAnyOf ['-', '=']) 2 TextConstants.MAX_HEADING_UNDERLINE_LENGTH],
          seqs [rstr "<h", rAnyOf ['1', '2', '3', '4', '5', '6'],
            rstar (rNoneOf ['>']), rchar '>']]))
      { pos := 0, caps := [] } { pos := 718, caps := [] } :=
    headml_seq (headml_of_eq (pLS (f + 5))) hAlt
  -- heading body, optional closing tag, end of line
  have hN4 : HeadML c5Input (f + 5) (.seq crlfOrEnd .eps)
      { pos := 719, caps := [] } { pos := 719, caps := [] } :=
    headml_seq (headml_of_eq (pD (f + 1))) headml_eps
  have hN5 : HeadML c5Input (f + 6)
      (.seq (ropt (seqs [rstr "</h", rAnyOf ['1', '2', '3', '4', '5', '6'], rchar '>']))
        (.seq crlfOrEnd .eps))
      { pos := 719, caps := [] } { pos := 719, caps := [] } :=
    headml_seq (headml_of_eq (pC (f + 1))) hN4
  have hN6 : HeadML c5Input (f + 7)
      (.seq (repB nonNl 1 TextConstants.MAX_HEADING_CONTENT_LENGTH)
        (.seq (ropt (seqs [rstr "</h", rAnyOf ['1', '2', '3', '4', '5', '6'], rchar '>']))
          (.seq crlfOrEnd .eps)))
      { pos := 718, caps := [] } { pos := 719, caps := [] } :=
    headml_seq (headml_of_eq (pB (f + 5))) hN5
  have hR1 : HeadML c5Input (f + 9) rule1
      { pos := 0, caps := [] } { pos := 719, caps := [(1, 0, 719)] } :=
    headml_group (headml_seq hA hN6)
  exact headml_alt_head hR1

/-- `searchFrom` succeeds immediately at a position where a match attempt
succeeds. -/
theorem searchFrom_cons {text : List Char} {n pos : Nat} {st : MState}
    (h : regexSearch text pos = some st) :
    searchFrom text (n + 1) pos = some (pos, st) := by
  show (match regexSearch text pos with
    | some st => some (pos, st)
    | none => if pos < text.length then searchFrom text n (pos + 1) else none) = some (pos, st)
  rw [h]

/-- One step of the scan loop: a successful leftmost search contributes its
match and the loop resumes behind it. -/
theorem finditer_cons {text : List Char} {n pos s : Nat} {st : MState}
    (h : searchFrom text (text.length + 1 - pos) pos = some (s, st)) :
    finditer text (n + 1) pos =
      (s, st) :: finditer text n (if st.pos = s then st.pos + 1 else st.pos) := by
  show (match searchFrom text (text.length + 1 - pos) pos with
    | none => []
    | some (s, st) => (s, st) :: finditer text n (if st.pos = s then st.pos + 1 else st.pos)) =
    (s, st) :: finditer text n (if st.pos = s then st.pos + 1 else st.pos)
  rw [h]

set_option maxRecDepth 2000000 in
/-- C5 counterexample: on the 719-character input `<h1`, 714 `x`, `>x`, the
scan emits a heading chunk (`Type_1`, group 1) spanning the whole input.
719 characters is more than 710, the sum of every configured bound the
heading rule can use: the longest marker alternative (a Setext heading
line, 1 + 200 + 2 + 200), the intended-but-unapplied 100-character HTML
attribute bound, the 200-character heading content, the 5-character
closing tag and the 2-character line ending.  The chunk exceeds the
maximum implied by the configured bounds of the rule that produced it,
because the compiled `[^>]*` is unbounded. -/
theorem C5_counterexample_heading_overrun :
    (∃ c ∈ scanChunks c5Input,
      c.chunk_type = "Type_1" ∧ c.start_pos = 0 ∧ c.end_pos = 719) ∧
    (1 + TextConstants.MAX_HEADING_CONTENT_LENGTH + 2 +
        TextConstants.MAX_HEADING_UNDERLINE_LENGTH) +
      TextConstants.MAX_HTML_HEADING_ATTRIBUTES_LENGTH +
      TextConstants.MAX_HEADING_CONTENT_LENGTH + 5 + 2 < 719 - 0 := by
  obtain ⟨t, hml⟩ := c5_match_head 107180
  have hml2 : ml c5Input 107190 fullRegex { pos := 0, caps := [] } =
      { pos := 719, caps := [(1, 0, 719)] } :: t := hml
  have hTF : textFuel c5Input = 107190 := by
    show 100000 + 10 * c5Input.length = 107190
    rw [c5Input_length]
  have hRS : regexSearch c5Input 0 = some { pos := 719, caps := [(1, 0, 719)] } := by
    simp only [regexSearch]
    rw [hTF, hml2, List.head?_cons]
  have hSF : searchFrom c5Input (c5Input.length + 1 - 0) 0 =
      some (0, { pos := 719, caps := [(1, 0, 719)] }) := by
    have h720 : c5Input.length + 1 - 0 = 719 + 1 := by rw [c5Input_length]
    rw [h720]
    exact searchFrom_cons hRS
  have h721 : c5Input.length + 2 = 720 + 1 := by rw [c5Input_length]
  have hHead : (scanChunks c5Input).head? =
      some { content := String.mk (sliceList c5Input 0 719),
             chunk_type := determine_chunk_type [(1, 0, 719)],
             start_pos := 0, end_pos := 719 } := by
    simp only [scanChunks]
    rw [h721, finditer_cons hSF, List.map_cons, List.head?_cons]
  constructor
  · refine ⟨{ content := String.mk (sliceList c5Input 0 719),
              chunk_type := determine_chunk_type [(1, 0, 719)],
              start_pos := 0, end_pos := 719 },
      List.mem_of_mem_head? hHead, ?_, rfl, rfl⟩
    show determine_chunk_type [(1, 0, 719)] = "Type_1"
    decide
  · decide

/-- C5 amended: bound respect holds for exactly the rules whose compiled
pattern has a finite static maximum — the code-block, table and math rules
(5, 6, 13, with maxima 4265, 4488 and 508 characters): no match of such a
rule consumes more than that maximum.  The heading, citation and
sentence-based rules have no finite maximum (unbounded `[^>]*` attributes,
`[0-9]+` digits, and trailing `AVOID_AT_START*` respectively), and the
heading rule really overruns every bound its configured constants imply
(see the counterexample above). -/
theorem C5_bounded_rules_respect_bounds :
    (∀ (text : List Char) (f pos : Nat) (st : MState) (k n : Nat),
      st ∈ ml text f (ruleBranch k) { pos := pos, caps := [] } →
      maxLenB (ruleBranch k) = some n → st.pos ≤ pos + n) ∧
    maxLenB rule5 = some 4265 ∧ maxLenB rule6 = some 4488 ∧
    maxLenB rule13 = some 508 ∧
    maxLenB rule1 = none ∧ maxLenB rule2 = none ∧ maxLenB rule9 = none := by
  refine ⟨?_, rfl, rfl, rfl, rfl, rfl, rfl⟩
  intro text f pos st k n hmem hmax
  exact ml_maxLen text f (ruleBranch k) _ st hmem n hmax

/-- Witness for the amended C5 bound at a concrete code-block match: the
tab-indented line `\tx` matches rule 5 over `[0, 2)`, within the static
maximum. -/
theorem C5_bounded_rules_respect_bounds_witness :
    ({ pos := 2, caps := [(5, 0, 2)] } : MState).pos ≤ 0 + 4265 :=
  C5_bounded_rules_respect_bounds.1 "\tx".data 100 0
    { pos := 2, caps := [(5, 0, 2)] } 5 4265 (by decide) rfl

end JinaTokenizer
